import Mathlib

/-!
Verification of the lucid-app document-to-risk-analysis pipeline.

This file shallowly embeds the decision logic of the two route handlers
(`src/app/api/analyze-text/route.ts` and `src/pages/api/analyze.ts`):
PII redaction (DLP delegation with regex fallback), the deterministic
mock/fallback analysis engine, segment risk labeling, page-by-page
analysis, malformed-JSON repair of the generation capability's output,
and the orchestrator's clause-page assignment and segment synthesis.

JavaScript strings are modelled as lists of characters (UTF-16 code
units; all inputs considered here are ASCII, where code units and
characters coincide).  JavaScript numbers are modelled as `Nat`/`Int`/`ℚ`
at the places where the source only manipulates small integers or exact
decimal constants; the one place where IEEE-754 infinity semantics is
observable (`Math.floor(x / 0)`) is modelled by an explicit case split.
-/

set_option maxRecDepth 4000

namespace Lucid

/-- JS strings as lists of characters. -/
abbrev Str := List Char

/-- Coerce a Lean string literal to the JS-string model. -/
def str (s : String) : Str := s.data

/-- JS `String.prototype.includes` (substring containment). -/
def containsSub : Str → Str → Bool
  | hay, needle =>
    if needle.isPrefixOf hay then true
    else match hay with
      | [] => false
      | _ :: t => containsSub t needle

/-- JS `String.prototype.toLowerCase` (ASCII fragment). -/
def jsToLower (s : Str) : Str := s.map Char.toLower

/-- JS whitespace for `trim` (ASCII fragment). -/
def isJsWs (c : Char) : Bool :=
  c == ' ' || c == '\t' || c == '\n' || c == '\r' || c == '\x0b' || c == '\x0c'

/-- JS `String.prototype.trim`. -/
def jsTrim (s : Str) : Str :=
  ((s.dropWhile isJsWs).reverse.dropWhile isJsWs).reverse

/-- Resolve a possibly-negative JS `slice` index against a length. -/
def clampIdx (len : Nat) (i : Int) : Nat :=
  if i < 0 then ((len : Int) + i).toNat else min i.toNat len

/-- JS `String.prototype.slice(start, end)` with negative-index wrapping. -/
def jsSlice (s : Str) (a b : Int) : Str :=
  (s.take (clampIdx s.length b)).drop (clampIdx s.length a)

/-- Decimal rendering of a natural number (JS template `${n}`). -/
def natStr (n : Nat) : Str := (toString n).data

/-- Indexed map starting at a given index (JS `.map((x, i) => ...)` /
`forEach` with index), in a structurally recursive form. -/
def mapIdxFrom (f : Nat → α → β) : Nat → List α → List β
  | _, [] => []
  | i, a :: rest => f i a :: mapIdxFrom f (i + 1) rest

/-- JS `Array.prototype.map` with the element index. -/
def jsMapIdx (f : Nat → α → β) (l : List α) : List β := mapIdxFrom f 0 l

/-! ## The regex fallback redactor (`redactPIIWithDLP`, mock branch)

Source (`src/app/api/analyze-text/route.ts` lines 75-80):
```
return input
  .replace(/\b[A-Za-z0-9._%+-]+@[A-Za-z0-9.-]+\.[A-Z|a-z]\x7b2,\x7d\b/g, '[EMAIL_REDACTED]')
  .replace(/\b\d\x7b3\x7d-\d\x7b3\x7d-\d\x7b4\x7d\b/g, '[PHONE_REDACTED]')
  .replace(/\b\d\x7b3\x7d-\d\x7b2\x7d-\d\x7b4\x7d\b/g, '[SSN_REDACTED]');
```
The matchers below implement the exact leftmost/greedy backtracking
semantics of these three patterns, including `\b` word boundaries.
-/

/-- Regex `\w`: `[A-Za-z0-9_]`. -/
def isWordChar (c : Char) : Bool :=
  ('A' ≤ c && c ≤ 'Z') || ('a' ≤ c && c ≤ 'z') || ('0' ≤ c && c ≤ '9') || c == '_'

def isWordO : Option Char → Bool
  | none => false
  | some c => isWordChar c

/-- Regex `\b` between a left and a right character (`none` = string edge). -/
def boundary (l r : Option Char) : Bool := isWordO l != isWordO r

def isDigitCh (c : Char) : Bool := '0' ≤ c && c ≤ '9'

/-- Email local-part class `[A-Za-z0-9._%+-]`. -/
def isLocalChar (c : Char) : Bool :=
  ('A' ≤ c && c ≤ 'Z') || ('a' ≤ c && c ≤ 'z') || ('0' ≤ c && c ≤ '9') ||
  c == '.' || c == '_' || c == '%' || c == '+' || c == '-'

/-- Email domain class `[A-Za-z0-9.-]`. -/
def isDomainChar (c : Char) : Bool :=
  ('A' ≤ c && c ≤ 'Z') || ('a' ≤ c && c ≤ 'z') || ('0' ≤ c && c ≤ '9') ||
  c == '.' || c == '-'

/-- Email top-level-domain class `[A-Z|a-z]` (the literal `|` is part of the class). -/
def isTldChar (c : Char) : Bool :=
  ('A' ≤ c && c ≤ 'Z') || ('a' ≤ c && c ≤ 'z') || c == '|'

/-- Character-by-character shape of a fixed-length pattern. -/
def matchShape : List (Char → Bool) → Str → Option Str
  | [], s => some s
  | _ :: _, [] => none
  | p :: ps, c :: cs => if p c then matchShape ps cs else none

/-- `\d\x7b3\x7d-\d\x7b3\x7d-\d\x7b4\x7d` (phone). -/
def phoneShape : List (Char → Bool) :=
  [isDigitCh, isDigitCh, isDigitCh, (· == '-'), isDigitCh, isDigitCh, isDigitCh,
   (· == '-'), isDigitCh, isDigitCh, isDigitCh, isDigitCh]

/-- `\d\x7b3\x7d-\d\x7b2\x7d-\d\x7b4\x7d` (government ID / SSN). -/
def ssnShape : List (Char → Bool) :=
  [isDigitCh, isDigitCh, isDigitCh, (· == '-'), isDigitCh, isDigitCh,
   (· == '-'), isDigitCh, isDigitCh, isDigitCh, isDigitCh]

/-- Try a `\b<shape>\b` pattern at the current position (`prev` = preceding
character, for the leading `\b`).  Returns the match length. -/
def tryFixed (shape : List (Char → Bool)) (prev : Option Char) (s : Str) : Option Nat :=
  match matchShape shape s with
  | none => none
  | some rest =>
    if boundary prev s.head? && boundary (s.take shape.length).getLast? rest.head?
    then some shape.length else none

/-- Try the email pattern
`\b[A-Za-z0-9._%+-]+@[A-Za-z0-9.-]+\.[A-Z|a-z]\x7b2,\x7d\b` at the current
position, with the exact greedy/backtracking order of the JS engine:
the local part is forced maximal (`@` is outside its class); the domain
run backtracks from its maximal extent looking for the literal `.`; the
tld run backtracks from maximal length down to 2 looking for a `\b`. -/
def tryEmail (prev : Option Char) (s : Str) : Option Nat :=
  match s with
  | [] => none
  | c0 :: _ =>
    if !boundary prev (some c0) then none else
    let lrun := s.takeWhile isLocalChar
    if lrun.isEmpty then none else
    match s.drop lrun.length with
    | '@' :: rest2 =>
      let drun := rest2.takeWhile isDomainChar
      if drun.isEmpty then none else
      (List.range' 1 drun.length).reverse.findSome? fun k =>
        if rest2.get? k == some '.' then
          let tailS := rest2.drop (k + 1)
          let trun := tailS.takeWhile isTldChar
          if trun.length < 2 then none else
          (List.range' 2 (trun.length - 1)).reverse.findSome? fun m =>
            if boundary (trun.get? (m - 1)) (tailS.get? m) then
              some (lrun.length + 1 + k + 1 + m)
            else none
        else none
    | _ => none

/-- JS `String.prototype.replace(pattern, repl)` with a global regex:
scan left to right, replacing leftmost non-overlapping matches; scanning
resumes after each match (all three patterns only produce non-empty
matches, so the `max · 1` never changes a returned length).  Structural
recursion on a fuel argument keeps the definition kernel-reducible; each
step consumes at least one character, so fuel `length + 1` is exact. -/
def replaceAllAux (tryAt : Option Char → Str → Option Nat) (repl : Str) :
    Nat → Option Char → Str → Str
  | 0, _, s => s
  | _ + 1, _, [] => []
  | fuel + 1, prev, c :: rest =>
    match tryAt prev (c :: rest) with
    | some L =>
      let L' := max L 1
      repl ++ replaceAllAux tryAt repl fuel ((c :: rest).take L').getLast? ((c :: rest).drop L')
    | none => c :: replaceAllAux tryAt repl fuel (some c) rest

def jsReplaceAll (tryAt : Option Char → Str → Option Nat) (repl : Str) (s : Str) : Str :=
  replaceAllAux tryAt repl (s.length + 1) none s

def emailPass (s : Str) : Str := jsReplaceAll tryEmail (str "[EMAIL_REDACTED]") s
def phonePass (s : Str) : Str := jsReplaceAll (tryFixed phoneShape) (str "[PHONE_REDACTED]") s
def ssnPass (s : Str) : Str := jsReplaceAll (tryFixed ssnShape) (str "[SSN_REDACTED]") s

/-- The deterministic regex fallback redactor (mock branch of
`redactPIIWithDLP`): the three replacements applied in source order. -/
def redactFallback (s : Str) : Str := ssnPass (phonePass (emailPass s))

/-! ### Scan predicates (for reasoning about the replacement passes)

These predicates describe a left-to-right scan of a string with a left
context character, mirroring the structure of `replaceAllAux`. -/

/-- The matcher reports no match at any position of `s` (scanning with left
context `prev`). -/
def noMatchScan (tryAt : Option Char → Str → Option Nat) : Option Char → Str → Prop
  | _, [] => True
  | prev, c :: rest => tryAt prev (c :: rest) = none ∧ noMatchScan tryAt (some c) rest

/-- The matcher reports no match at any position of `s`, where the text
continues with `tail` after `s` (scanning with left context `prev`). -/
def noMatchAlong (tryAt : Option Char → Str → Option Nat) (tail : Str) :
    Option Char → Str → Prop
  | _, [] => True
  | prev, c :: rest =>
      tryAt prev (c :: (rest ++ tail)) = none ∧ noMatchAlong tryAt tail (some c) rest

/-- Left context after reading `a`, starting from context `prev`. -/
def ctxA (prev : Option Char) (a : Str) : Option Char :=
  match a.getLast? with
  | some c => some c
  | none => prev

/-- Pointwise transfer hypothesis along a scan: wherever `tryQ` reports no
match, `tryP` reports no match either.  It holds trivially for `tryP = tryQ`,
and follows from `noMatchScan tryP` for different patterns. -/
def HypPQ (tryP tryQ : Option Char → Str → Option Nat) : Option Char → Str → Prop
  | _, [] => True
  | prev, c :: rest =>
      (tryQ prev (c :: rest) = none → tryP prev (c :: rest) = none) ∧
      HypPQ tryP tryQ (some c) rest

/-- Context compatibility between the input-side scan context `prevX` and the
output-side scan context `prevOut`: equal word status, or a non-word output
context with a non-word input head (the situation right after a replacement
whose placeholder ends in `]`). -/
def CtxOK (prevX prevOut : Option Char) : Str → Prop
  | [] => True
  | c :: _ => isWordO prevOut = isWordO prevX ∨
      (isWordO prevOut = false ∧ isWordChar c = false)

/-- A string satisfies a fixed shape pointwise (and has its exact length). -/
def shapeOKL : List (Char → Bool) → Str → Prop
  | [], [] => True
  | p :: ps, c :: cs => p c = true ∧ shapeOKL ps cs
  | _, _ => False

/-- A successful-match decomposition for the email pattern at the current
position: local part `lp`, domain part `dp`, top-level-domain part `tp`,
remainder `rest`; the matched text is `lp ++ \x27@\x27 :: dp ++ \x27.\x27 :: tp`. -/
def ECand (prev : Option Char) (lp dp tp rest : Str) : Prop :=
  lp ≠ [] ∧ (∀ c ∈ lp, isLocalChar c = true) ∧
  dp ≠ [] ∧ (∀ c ∈ dp, isDomainChar c = true) ∧
  2 ≤ tp.length ∧ (∀ c ∈ tp, isTldChar c = true) ∧
  boundary prev lp.head? = true ∧
  boundary tp.getLast? rest.head? = true

/-! ## Data model (`src/lib/types` as used by the route handlers) -/

inductive RiskLevel
  | low
  | medium
  | high
deriving DecidableEq, Repr

/-- `low < medium < high`; used for aggregation. -/
def riskMax : RiskLevel → RiskLevel → RiskLevel
  | .high, _ => .high
  | _, .high => .high
  | .medium, _ => .medium
  | _, .medium => .medium
  | .low, .low => .low

inductive Lang
  | en
  | hi
  | hinglish
deriving DecidableEq, Repr

structure Bbox where
  x : ℚ
  y : ℚ
  w : ℚ
  h : ℚ
deriving DecidableEq, Repr

structure Citation where
  title : Str
  url : Str
deriving DecidableEq, Repr

structure Clause where
  id : Str
  title : Str
  original : Str
  simple : Str
  why : Str
  risk : RiskLevel
  citations : List Citation
  page : Option Nat
deriving DecidableEq, Repr

structure Segment where
  id : Str
  page : Nat
  bbox : Bbox
  text : Str
  risk : RiskLevel
  simple : Str
deriving DecidableEq, Repr

structure AnalysisResult where
  summary : Str
  overallRisk : RiskLevel
  clauses : List Clause
  language : Lang
  segments : Option (List Segment)
deriving DecidableEq, Repr

/-! ## The fallback heuristic engine (`generateMockAnalysis`,
`src/app/api/analyze-text/route.ts` lines 127-417) -/

/-- The 18 topic keyword detections (`documentPatterns`), computed on the
lower-cased document text. -/
structure DocumentPatterns where
  payment : Bool
  termination : Bool
  liability : Bool
  renewal : Bool
  arbitration : Bool
  intellectual : Bool
  confidentiality : Bool
  warranty : Bool
  compliance : Bool
  penalty : Bool
  insurance : Bool
  employment : Bool
  real_estate : Bool
  purchase : Bool
  service : Bool
  loan : Bool
  partnership : Bool
  data : Bool
deriving DecidableEq, Repr

def documentPatterns (words : Str) : DocumentPatterns where
  payment := containsSub words (str "payment") || containsSub words (str "pay") ||
    containsSub words (str "fee") || containsSub words (str "cost") ||
    containsSub words (str "price") || containsSub words (str "invoice") ||
    containsSub words (str "billing")
  termination := containsSub words (str "terminate") || containsSub words (str "cancel") ||
    containsSub words (str "end") || containsSub words (str "expire") ||
    containsSub words (str "dissolution") || containsSub words (str "exit")
  liability := containsSub words (str "liability") || containsSub words (str "responsible") ||
    containsSub words (str "damages") || containsSub words (str "loss") ||
    containsSub words (str "harm") || containsSub words (str "indemnify")
  renewal := containsSub words (str "renew") || containsSub words (str "automatic") ||
    containsSub words (str "extend") || containsSub words (str "continue") ||
    containsSub words (str "perpetual")
  arbitration := containsSub words (str "arbitration") || containsSub words (str "dispute") ||
    containsSub words (str "court") || containsSub words (str "litigation") ||
    containsSub words (str "mediation")
  intellectual := containsSub words (str "intellectual") || containsSub words (str "copyright") ||
    containsSub words (str "trademark") || containsSub words (str "patent") ||
    containsSub words (str "proprietary")
  confidentiality := containsSub words (str "confidential") ||
    containsSub words (str "non-disclosure") || containsSub words (str "secret") ||
    containsSub words (str "private")
  warranty := containsSub words (str "warranty") || containsSub words (str "guarantee") ||
    containsSub words (str "representation") || containsSub words (str "promise")
  compliance := containsSub words (str "comply") || containsSub words (str "regulation") ||
    containsSub words (str "standard") || containsSub words (str "requirement")
  penalty := containsSub words (str "penalty") || containsSub words (str "fine") ||
    containsSub words (str "breach") || containsSub words (str "default") ||
    containsSub words (str "violation")
  insurance := containsSub words (str "insurance") || containsSub words (str "coverage") ||
    containsSub words (str "policy") || containsSub words (str "claim")
  employment := containsSub words (str "employee") || containsSub words (str "work") ||
    containsSub words (str "salary") || containsSub words (str "benefits") ||
    containsSub words (str "vacation")
  real_estate := containsSub words (str "property") || containsSub words (str "lease") ||
    containsSub words (str "rent") || containsSub words (str "premises") ||
    containsSub words (str "landlord")
  purchase := containsSub words (str "purchase") || containsSub words (str "buy") ||
    containsSub words (str "sale") || containsSub words (str "goods") ||
    containsSub words (str "product")
  service := containsSub words (str "service") || containsSub words (str "perform") ||
    containsSub words (str "deliver") || containsSub words (str "provide")
  loan := containsSub words (str "loan") || containsSub words (str "credit") ||
    containsSub words (str "debt") || containsSub words (str "interest") ||
    containsSub words (str "mortgage")
  partnership := containsSub words (str "partner") || containsSub words (str "joint") ||
    containsSub words (str "collaborate") || containsSub words (str "venture")
  data := containsSub words (str "data") || containsSub words (str "information") ||
    containsSub words (str "personal") || containsSub words (str "privacy") ||
    containsSub words (str "gdpr")

/-- `getDocumentType`: fixed priority order, first match wins. -/
def getDocumentType (p : DocumentPatterns) : String :=
  if p.employment then "employment"
  else if p.real_estate then "real_estate"
  else if p.loan then "loan"
  else if p.purchase then "purchase"
  else if p.partnership then "partnership"
  else if p.service then "service"
  else "general"

def getDocumentTitle (docType : String) : Str :=
  match docType with
  | "employment" => str "Employment Agreement Overview"
  | "real_estate" => str "Property Agreement Structure"
  | "loan" => str "Loan Agreement Framework"
  | "purchase" => str "Purchase Agreement Details"
  | "partnership" => str "Partnership Agreement Foundation"
  | "service" => str "Service Agreement Introduction"
  | _ => str "Document Structure and Organization"

def getDocumentSimpleExplanation (docType : String) : Str :=
  match docType with
  | "employment" => str "This document establishes the working relationship between you and your employer, including your job duties, compensation, and workplace rules."
  | "real_estate" => str "This agreement covers the property transaction, including rights, responsibilities, and conditions for the property involved."
  | "loan" => str "This document outlines the terms of borrowing money, including repayment schedule, interest rates, and consequences of non-payment."
  | "purchase" => str "This agreement details what you\x27re buying, the price, delivery terms, and what happens if there are problems with the purchase."
  | "partnership" => str "This document establishes how the business partnership will operate, including roles, profit sharing, and decision-making processes."
  | "service" => str "This agreement explains what services will be provided, how much they cost, and the standards expected from both parties."
  | _ => str "This document establishes the basic framework and definitions for the legal agreement between the parties."

def getDocumentWhyItMatters (docType : String) : Str :=
  match docType with
  | "employment" => str "Understanding your employment terms protects your career interests and helps you know your rights and obligations as an employee."
  | "real_estate" => str "Property agreements involve significant money and legal obligations, so understanding these terms protects your investment and rights."
  | "loan" => str "Loan terms directly affect your financial future and credit, so knowing these details helps you avoid costly mistakes and default."
  | "purchase" => str "Purchase agreements protect you from fraud and ensure you get what you paid for, while clarifying your recourse if problems arise."
  | "partnership" => str "Partnership terms affect your business control, profits, and personal liability, making it crucial to understand your commitments."
  | "service" => str "Service agreements set expectations and protect both parties, helping avoid disputes and ensuring you get the value you\x27re paying for."
  | _ => str "Understanding the document structure helps you navigate the contract effectively and know where to find important information."

structure ClauseData where
  title : Str
  original : Str
  simple : Str
  why : Str
  risk : RiskLevel
  page : Nat
deriving DecidableEq, Repr

/-- `getClauseData(area, docType, text, index)`: per-topic clause template with
a deterministic source-text window. -/
def getClauseData (pats : DocumentPatterns) (area : String) (docType : String)
    (text : Str) (index : Nat) : ClauseData :=
  let textStart : Int := min ((index + 1 : Int) * 200) ((text.length : Int) - 200)
  let textEnd : Int := min (textStart + 200) (text.length : Int)
  let original : Str := jsSlice text textStart textEnd ++
    (if textEnd < (text.length : Int) then str "..." else [])
  let page : Nat := index / 2 + 2
  match area with
  | "payment" =>
    { title := str "Payment and Financial Terms", original
      simple := str "This section covers how much you need to pay, when payments are due, and what happens if you\x27re late. " ++
        (if docType = "loan" then str "Interest rates and repayment schedules are crucial here."
         else if docType = "employment" then str "This includes your salary, benefits, and payment schedule."
         else str "Understanding payment terms helps you budget and avoid penalties.")
      why := str "Payment terms directly impact your budget and financial planning. Late payment penalties can be expensive, and understanding these terms helps you avoid unnecessary costs."
      risk := .medium, page }
  | "termination" =>
    { title := str "Termination and Exit Procedures", original
      simple := str "This explains how the relationship can end, what notice is required, and any penalties for early termination. " ++
        (if docType = "employment" then str "This covers how you can quit or be fired."
         else if docType = "real_estate" then str "This covers lease termination and move-out procedures."
         else str "This covers how to properly end the agreement.")
      why := str "Knowing your exit options is crucial for maintaining flexibility and avoiding being locked into unfavorable terms longer than necessary."
      risk := if pats.penalty then .high else .medium, page }
  | "liability" =>
    { title := str "Liability and Risk Allocation", original
      simple := str "This determines who pays when things go wrong, including accidents, damages, or legal issues. " ++
        (if docType = "employment" then str "This might cover workplace injuries or professional errors."
         else if docType = "real_estate" then str "This covers property damage and injury liability."
         else str "This affects who is responsible for various types of problems.")
      why := str "Liability clauses can expose you to significant financial risk or limit your ability to recover losses. These provisions can cost thousands if you don\x27t understand them."
      risk := .high, page }
  | "arbitration" =>
    { title := str "Dispute Resolution and Legal Rights", original
      simple := str "This controls how disagreements are resolved, potentially requiring arbitration instead of court proceedings. You might be limited in where and how you can pursue legal claims."
      why := str "Arbitration clauses can significantly limit your legal rights and make it more expensive and difficult to pursue legitimate complaints or seek compensation."
      risk := .high, page }
  | "renewal" =>
    { title := str "Renewal and Continuation Terms", original
      simple := str "This covers whether the agreement automatically continues and what you need to do to prevent unwanted renewals. " ++
        (if docType = "real_estate" then str "This might involve automatic lease renewals."
         else str "This could lock you into continued obligations.")
      why := str "Auto-renewal clauses can trap you in agreements longer than intended, potentially at different rates or terms that may not be favorable."
      risk := .medium, page }
  | "intellectual" =>
    { title := str "Intellectual Property and Ownership Rights", original
      simple := str "This determines who owns ideas, creations, or innovations developed during the relationship. " ++
        (if docType = "employment" then str "This often means your employer owns work you create on the job."
         else str "This affects ownership of any collaborative work or innovations.")
      why := str "IP clauses can affect your future business opportunities and ownership rights to valuable creations or innovations."
      risk := .medium, page }
  | "confidentiality" =>
    { title := str "Confidentiality and Non-Disclosure Requirements", original
      simple := str "This requires you to keep certain information secret and may restrict what you can discuss about the relationship or business."
      why := str "Confidentiality agreements can limit your ability to discuss your experience, seek advice, or use knowledge gained in future opportunities."
      risk := .medium, page }
  | "penalty" =>
    { title := str "Penalties and Default Consequences", original
      simple := str "This outlines the financial and legal consequences if you fail to meet your obligations under the agreement."
      why := str "Penalty clauses can result in significant unexpected costs and should be understood before you commit to any agreement."
      risk := .high, page }
  | "insurance" =>
    { title := str "Insurance and Coverage Requirements", original
      simple := str "This specifies what insurance coverage you must maintain and who is responsible for various types of claims or losses."
      why := str "Insurance requirements can add significant costs to your obligations and affect your financial protection in case of problems."
      risk := .medium, page }
  | "compliance" =>
    { title := str "Compliance and Regulatory Requirements", original
      simple := str "This outlines legal and regulatory standards you must follow and the consequences of non-compliance."
      why := str "Compliance failures can result in legal penalties, fines, or contract termination, making it important to understand these requirements."
      risk := .medium, page }
  | "data" =>
    { title := str "Data Privacy and Information Handling", original
      simple := str "This covers how personal information is collected, used, and protected, including your privacy rights and data security measures."
      why := str "Data privacy terms affect your personal information security and may impact your legal rights if data breaches or misuse occur."
      risk := .medium, page }
  | "warranty" =>
    { title := str "Warranties and Quality Guarantees", original
      simple := str "This outlines what promises are made about quality, performance, or reliability, and what recourse you have if expectations aren\x27t met."
      why := str "Warranty terms determine your protection and remedies if products or services don\x27t meet promised standards."
      risk := .low, page }
  | other =>
    -- dead default branch of the template lookup (`clauseTemplates[area]?.x || ...`)
    { title := str (other.capitalize ++ " Provisions"), original
      simple := str ("This section addresses " ++ other ++ " related terms and conditions.")
      why := str ("Understanding " ++ other ++ " terms helps protect your interests.")
      risk := .medium, page }

/-- The `contentAreas` list, in the fixed order the source pushes them. -/
def contentAreas (p : DocumentPatterns) : List String :=
  (if p.payment then ["payment"] else []) ++
  (if p.termination then ["termination"] else []) ++
  (if p.liability then ["liability"] else []) ++
  (if p.arbitration then ["arbitration"] else []) ++
  (if p.renewal then ["renewal"] else []) ++
  (if p.intellectual then ["intellectual"] else []) ++
  (if p.confidentiality then ["confidentiality"] else []) ++
  (if p.penalty then ["penalty"] else []) ++
  (if p.insurance then ["insurance"] else []) ++
  (if p.compliance then ["compliance"] else []) ++
  (if p.data then ["data"] else []) ++
  (if p.warranty then ["warranty"] else [])

structure FallbackRow where
  title : Str
  risk : RiskLevel
  page : Nat
deriving DecidableEq, Repr

/-- The `docSpecificClauses` table of `getFallbackClauses`; document types
without a row fall back to the `general` rows. -/
def docSpecificClauses (docType : String) : List FallbackRow :=
  match docType with
  | "employment" =>
    [⟨str "Job Duties and Performance Expectations", .low, 2⟩,
     ⟨str "Benefits and Compensation Details", .medium, 2⟩,
     ⟨str "Workplace Policies and Procedures", .low, 3⟩]
  | "real_estate" =>
    [⟨str "Property Condition and Inspection Rights", .medium, 2⟩,
     ⟨str "Maintenance and Repair Responsibilities", .medium, 3⟩,
     ⟨str "Utilities and Additional Costs", .low, 3⟩]
  | "loan" =>
    [⟨str "Interest Rates and Payment Schedule", .high, 2⟩,
     ⟨str "Collateral and Security Requirements", .high, 3⟩,
     ⟨str "Default and Acceleration Clauses", .high, 3⟩]
  | _ =>
    [⟨str "General Terms and Conditions", .low, 2⟩,
     ⟨str "Miscellaneous Provisions", .low, 4⟩]

/-- `getFallbackClauses(docType, text, startingId)`. -/
def getFallbackClauses (docType : String) (text : Str) (startingId : Nat) : List Clause :=
  jsMapIdx (fun index row =>
    let textStart : Int := min ((index + 3 : Int) * 150) ((text.length : Int) - 150)
    let textEnd : Int := min (textStart + 150) (text.length : Int)
    { id := 'c' :: natStr (startingId + index)
      title := row.title
      original := jsSlice text textStart textEnd ++
        (if textEnd < (text.length : Int) then str "..." else [])
      simple := str "This section covers " ++ jsToLower row.title ++
        str " which is important for understanding your obligations and rights."
      why := str "Understanding these terms helps ensure you comply with all requirements and know what to expect."
      risk := row.risk
      citations := []
      page := some row.page }) (docSpecificClauses docType)

/-- The clause list built by `generateClausesForDocument`: the introductory
clause, one clause per detected content area, and (when fewer than 4 clauses
resulted) the document-type-specific fallback clauses. -/
def generateClausesForDocument (text : Str) (pats : DocumentPatterns)
    (docType : String) : List Clause :=
  let intro : Clause :=
    { id := str "c1"
      title := getDocumentTitle docType
      original := jsSlice text 0 (min 200 (text.length : Int)) ++
        (if 200 < text.length then str "..." else [])
      simple := getDocumentSimpleExplanation docType
      why := getDocumentWhyItMatters docType
      risk := .low
      citations := []
      page := some 1 }
  let areaClauses := jsMapIdx (fun index area =>
    let cd := getClauseData pats area docType text index
    { id := 'c' :: natStr (2 + index), title := cd.title, original := cd.original,
      simple := cd.simple, why := cd.why, risk := cd.risk, citations := [],
      page := some cd.page : Clause }) (contentAreas pats)
  let base := intro :: areaClauses
  if base.length < 4 then base ++ getFallbackClauses docType text (base.length + 1)
  else base

/-- `generateMockAnalysis(text, language)`.  The source increments a
`riskCount` record once per pushed clause; its final value is therefore the
number of clauses at each risk level, which is how it is computed here. -/
def generateMockAnalysis (text : Str) (language : Lang) : AnalysisResult :=
  let words := jsToLower text
  let pats := documentPatterns words
  let docType := getDocumentType pats
  let clauses := generateClausesForDocument text pats docType
  let highN := (clauses.map (·.risk)).count .high
  let medN := (clauses.map (·.risk)).count .medium
  let overallRisk :=
    if highN > 0 then RiskLevel.high
    else if medN > 0 then RiskLevel.medium
    else RiskLevel.low
  { summary := str "This document has been analyzed and contains " ++ natStr clauses.length ++
      str " key section" ++ (if clauses.length = 1 then [] else str "s") ++ str ". " ++
      (if highN > 0 then
        str "There are " ++ natStr highN ++
          str " high-risk areas requiring careful attention, particularly around liability and penalties."
       else if medN > 0 then
        str "There are " ++ natStr medN ++
          str " medium-risk areas to review, mainly concerning payments and renewals."
       else str "The document appears to have standard terms with low overall risk.") ++
      str " Please review each section carefully and consider seeking legal advice for important decisions."
    overallRisk := overallRisk
    clauses := clauses
    language := language
    segments := none }

/-! ## The analyze-text POST handler (`src/app/api/analyze-text/route.ts`) -/

/-- `redactPIIWithDLP(input)`: blank input is returned unchanged; in mock mode
(no project configured) the regex fallback runs; otherwise the DLP call result
is used (`resp.item?.value ?? input`), and a thrown DLP error propagates. -/
def redactPIIWithDLP (mockMode : Bool) (dlpResult : Except Unit (Option Str))
    (input : Str) : Except Unit Str :=
  if input.isEmpty || (jsTrim input).isEmpty then .ok input
  else if mockMode then .ok (redactFallback input)
  else match dlpResult with
    | .ok v => .ok (v.getD input)
    | .error e => .error e

/-- The redaction step of `POST` (lines 37-42): on a redaction error the
handler logs and proceeds with the original, unredacted text. -/
def postRedactStep (mockMode : Bool) (dlpResult : Except Unit (Option Str))
    (text : Str) : Str :=
  match redactPIIWithDLP mockMode dlpResult text with
  | .ok r => r
  | .error _ => text

/-- `redactWithDLP` of `src/pages/api/analyze.ts` (lines 261-279): the DLP
result is used when the call succeeds; on error the original text is returned
(there is no regex fallback in this route). -/
def redactWithDLP (dlpResult : Except Unit (Option Str)) (text : Str) : Str :=
  match dlpResult with
  | .ok v => v.getD text
  | .error _ => text

/-- One synthesized placeholder segment (`POST` lines 54-66). -/
def mkFallbackSegment (idx : Nat) (clause : Clause) : Segment where
  id := str "fallback-" ++ natStr idx
  page := 1
  bbox := { x := 0.05, y := 0.1 + (idx : ℚ) * 0.15, w := 0.9, h := 0.1 }
  text := jsSlice clause.original 0 100 ++ str "..."
  risk := clause.risk
  simple := clause.simple

/-- The segment-fallback step of `POST` (lines 52-67): when the analysis
result has no segments (absent or empty), synthesize one placeholder segment
per clause. -/
def addFallbackSegments (ai : AnalysisResult) : AnalysisResult :=
  match ai.segments with
  | none => { ai with segments := some (jsMapIdx mkFallbackSegment ai.clauses) }
  | some segs =>
    if segs.isEmpty then { ai with segments := some (jsMapIdx mkFallbackSegment ai.clauses) }
    else ai

/-- The mock-mode path of the analyze-text `POST` handler: regex redaction
(which cannot fail), mock analysis, then fallback-segment synthesis. -/
def postAnalyzeTextMock (text : Str) (language : Lang) : AnalysisResult :=
  let redacted := postRedactStep true (.ok none) text
  let ai := generateMockAnalysis redacted language
  addFallbackSegments ai

/-! ## JSON values and `JSON.parse`

The generation capability's output is an untrusted string that the source
feeds to `JSON.parse` after cleanup/repair.  `Json` models parsed values;
numbers are kept exact as rationals (the concrete numbers appearing in the
claims are small integers, where IEEE-754 doubles are exact). -/

inductive Json
  | null
  | bool (b : Bool)
  | num (q : ℚ)
  | str (s : Str)
  | arr (xs : List Json)
  | obj (fields : List (Str × Json))
deriving Repr

def jsonWs (c : Char) : Bool := c == ' ' || c == '\t' || c == '\n' || c == '\r'

def skipWs : Str → Str
  | [] => []
  | c :: rest => if jsonWs c then skipWs rest else c :: rest

/-- Value of one hexadecimal digit (code points 0-9, a-f, A-F). -/
def hexVal (c : Char) : Option Nat :=
  let n := c.toNat
  if 48 ≤ n ∧ n ≤ 57 then some (n - 48)
  else if 97 ≤ n ∧ n ≤ 102 then some (n - 87)
  else if 65 ≤ n ∧ n ≤ 70 then some (n - 55)
  else none

/-- Parse a JSON string body (after the opening quote), handling escapes.
Structural recursion on a fuel argument (`length + 1` always suffices). -/
def parseStrBodyF : Nat → Str → Option (Str × Str)
  | 0, _ => none
  | _ + 1, [] => none
  | _ + 1, '"' :: rest => some ([], rest)
  | fuel + 1, '\\' :: e :: rest =>
    if e == 'u' then
      match rest with
      | a :: b :: c :: d :: rest2 =>
        match hexVal a, hexVal b, hexVal c, hexVal d with
        | some va, some vb, some vc, some vd =>
          (parseStrBodyF fuel rest2).map fun (s, r) =>
            (Char.ofNat (((va * 16 + vb) * 16 + vc) * 16 + vd) :: s, r)
        | _, _, _, _ => none
      | _ => none
    else
      (match e with
       | '"' => some '"'
       | '\\' => some '\\'
       | '/' => some '/'
       | 'b' => some '\x08'
       | 'f' => some '\x0c'
       | 'n' => some '\n'
       | 'r' => some '\r'
       | 't' => some '\t'
       | _ => none).bind fun c =>
        (parseStrBodyF fuel rest).map fun (s, r) => (c :: s, r)
  | fuel + 1, c :: rest =>
    if c.toNat < 0x20 then none
    else (parseStrBodyF fuel rest).map fun (s, r) => (c :: s, r)

def parseStrBody (s : Str) : Option (Str × Str) := parseStrBodyF (s.length + 1) s

def digitsToNat (ds : Str) : Nat :=
  ds.foldl (fun acc c => acc * 10 + (c.toNat - '0'.toNat)) 0

/-- Parse a JSON number per the JSON grammar; the value is exact. -/
def parseNum (s : Str) : Option (Json × Str) :=
  let (neg, s1) := match s with
    | '-' :: r => (true, r)
    | _ => (false, s)
  let ds := s1.takeWhile isDigitCh
  if ds.isEmpty then none
  else if ds.length > 1 && ds.head? == some '0' then none
  else
    let s2 := s1.drop ds.length
    let (fs, s3) := match s2 with
      | '.' :: r =>
        let f := r.takeWhile isDigitCh
        (f, r.drop f.length)
      | _ => (([] : Str), s2)
    if s2.head? == some '.' && fs.isEmpty then none
    else
      let (expOk, e, s4) := match s3 with
        | c :: r =>
          if c == 'e' || c == 'E' then
            let (eneg, r2) := match r with
              | '-' :: r3 => (true, r3)
              | '+' :: r3 => (false, r3)
              | _ => (false, r)
            let es := r2.takeWhile isDigitCh
            if es.isEmpty then (false, (0 : ℤ), s3)
            else (true, (if eneg then -(digitsToNat es : ℤ) else (digitsToNat es : ℤ)),
                  r2.drop es.length)
          else (true, 0, s3)
        | [] => (true, 0, s3)
      if !expOk then none
      else
        let mant : ℚ := (digitsToNat ds : ℚ) +
          (if fs.isEmpty then 0 else (digitsToNat fs : ℚ) / ((10 : ℚ) ^ fs.length))
        let v : ℚ := (if neg then -mant else mant) * (10 : ℚ) ^ e
        some (.num v, s4)

mutual

def parseVal : Nat → Str → Option (Json × Str)
  | 0, _ => none
  | fuel + 1, s =>
    match skipWs s with
    | [] => none
    | c :: rest =>
      if c == 'n' then
        if (str "ull").isPrefixOf rest then some (.null, rest.drop 3) else none
      else if c == 't' then
        if (str "rue").isPrefixOf rest then some (.bool true, rest.drop 3) else none
      else if c == 'f' then
        if (str "alse").isPrefixOf rest then some (.bool false, rest.drop 4) else none
      else if c == '"' then
        (parseStrBody rest).map fun (s1, r) => (.str s1, r)
      else if c == '[' then
        match skipWs rest with
        | ']' :: r2 => some (.arr [], r2)
        | r1 => (parseElems fuel r1).map fun (xs, r) => (.arr xs, r)
      else if c == '\x7b' then
        match skipWs rest with
        | '\x7d' :: r2 => some (.obj [], r2)
        | r1 => (parseMembers fuel r1).map fun (fs, r) => (.obj fs, r)
      else parseNum (c :: rest)

def parseElems : Nat → Str → Option (List Json × Str)
  | 0, _ => none
  | fuel + 1, s =>
    (parseVal fuel s).bind fun (j, r) =>
      match skipWs r with
      | ',' :: r2 => (parseElems fuel r2).map fun (xs, r3) => (j :: xs, r3)
      | ']' :: r2 => some ([j], r2)
      | _ => none

def parseMembers : Nat → Str → Option (List (Str × Json) × Str)
  | 0, _ => none
  | fuel + 1, s =>
    match skipWs s with
    | '"' :: r1 =>
      (parseStrBody r1).bind fun (k, r2) =>
        match skipWs r2 with
        | ':' :: r3 =>
          (parseVal fuel r3).bind fun (j, r4) =>
            match skipWs r4 with
            | ',' :: r5 => (parseMembers fuel r5).map fun (fs, r6) => ((k, j) :: fs, r6)
            | '\x7d' :: r5 => some ([(k, j)], r5)
            | _ => none
        | _ => none
    | _ => none

end

/-- `JSON.parse`: parse one value and require only whitespace afterwards. -/
def parseJson (s : Str) : Option Json :=
  match parseVal (2 * s.length + 2) s with
  | some (j, rest) => if (skipWs rest).isEmpty then some j else none
  | none => none

/-- JS truthiness of a parsed JSON value. -/
def jsonTruthy : Json → Bool
  | .null => false
  | .bool b => b
  | .num q => !(q == 0)
  | .str s => !s.isEmpty
  | .arr _ => true
  | .obj _ => true

/-- JS property access on a parsed JSON value: objects use the last binding
(duplicate keys overwrite); non-objects yield `undefined` (`none`); access on
`null` throws and is handled by the callers. -/
def jsonGet (j : Json) (key : Str) : Option Json :=
  match j with
  | .obj fields => (fields.reverse.find? (fun kv => kv.1 == key)).map (·.2)
  | _ => none

/-! ## Document Risk Analyzer post-processing (`analyzeWithGemini`,
`src/pages/api/analyze.ts` lines 545-613) -/

/-- Index of the first occurrence of a character. -/
def firstIdxOf (s : Str) (c : Char) : Option Nat := s.findIdx? (· == c)

/-- Index of the last occurrence of a character. -/
def lastIdxOf (s : Str) (c : Char) : Option Nat :=
  (s.reverse.findIdx? (· == c)).map (fun i => s.length - 1 - i)

/-- `cleanTxt.match(/\x7b[\s\S]*\x7d/)`: from the first `\x7b` to the last
`\x7d` (leftmost start, greedy extent), if such a span exists. -/
def braceMatch (s : Str) : Option Str :=
  match firstIdxOf s '\x7b', lastIdxOf s '\x7d' with
  | some a, some b => if a < b then some ((s.take (b + 1)).drop a) else none
  | _, _ => none

/-- Markdown code-fence stripping (lines 549-556): trim, then remove a
leading ` ```json ` or ` ``` ` fence and a trailing ` ``` ` fence. -/
def stripTrailFence (t : Str) : Str :=
  let r := t.reverse
  if (str "```").isPrefixOf r then ((r.drop 3).dropWhile isJsWs).reverse else t

def stripFencesGemini (t0 : Str) : Str :=
  let t := jsTrim t0
  if (str "```json").isPrefixOf t then stripTrailFence ((t.drop 7).dropWhile isJsWs)
  else if (str "```").isPrefixOf t then stripTrailFence ((t.drop 3).dropWhile isJsWs)
  else t

/-- The truncated-JSON repair (lines 564-584): when the text does not end in
`\x7d`, try to close an unterminated string, then append the missing closing
braces counted by brace-depth difference (all `\x7b`/`\x7d` characters count,
including those inside string literals). -/
def repairTruncated (t : Str) : Str :=
  if t.getLast? == some '\x7d' then t
  else
    let openBraces := t.count '\x7b'
    let closeBraces := t.count '\x7d'
    let t1 :=
      if containsSub t (str "\"") && !(t.getLast? == some '"') then
        match lastIdxOf t '"' with
        | some lastQuote =>
          let afterLastQuote := t.drop (lastQuote + 1)
          if !containsSub afterLastQuote (str "\"") then t ++ [ '"' ] else t
        | none => t
      else t
    t1 ++ List.replicate (openBraces - closeBraces) '\x7d'

/-- `txt.match(/"summary":\s*"([^"]+)"/)` at one position. -/
def summaryCapAt (s : Str) : Option Str :=
  if (str "\"summary\":").isPrefixOf s then
    match (s.drop 10).dropWhile isJsWs with
    | '"' :: r2 =>
      let cap := r2.takeWhile (· != '"')
      if cap.isEmpty then none
      else if r2.get? cap.length == some '"' then some cap else none
    | _ => none
  else none

/-- Leftmost match of the summary-salvage pattern. -/
def findSummaryCap : Str → Option Str
  | [] => none
  | c :: rest =>
    match summaryCapAt (c :: rest) with
    | some cap => some cap
    | none => findSummaryCap rest

/-- Result of the document risk analyzer: either the parsed (unvalidated)
JSON from the generation capability, or the salvage/fallback record. -/
inductive GeminiOut
  | parsed (j : Json)
  | fallback (r : AnalysisResult)
deriving Repr

/-- `analyzeWithGemini` post-processing: `txt` is the capability's response
text, `text` the (redacted) document text that was analyzed.  On a successful
parse the JSON is returned as the result without validation; otherwise the
summary is salvaged by pattern extraction and a generic single-clause
fallback is built. -/
def analyzeWithGeminiPost (txt : Str) (text : Str) (language : Lang) : GeminiOut :=
  let cleanTxt0 := stripFencesGemini txt
  let cleanTxt1 :=
    match braceMatch cleanTxt0 with
    | some m => m
    | none => cleanTxt0
  let cleanTxt := repairTruncated cleanTxt1
  match parseJson cleanTxt with
  | some j => .parsed j
  | none =>
    let summary := (findSummaryCap txt).getD
      (str "This document contains legal text that needs review.")
    .fallback
      { summary :=
          if summary.length > 50 then summary
          else str "This document contains important legal provisions that should be reviewed carefully. The document appears to cover corporate governance, meeting procedures, and operational guidelines. For specific legal advice regarding this document, please consult with a qualified attorney."
        overallRisk := .medium
        clauses := [{ id := str "review-1"
                      title := str "Document Review Required"
                      original := text.take 300 ++ str "..."
                      simple := str "This document contains legal provisions that require careful review."
                      why := str "Legal documents often contain important rights, obligations, and procedures that can affect your interests."
                      risk := .medium
                      citations := []
                      page := none }]
        language := language
        segments := none }

/-! ## Segment Risk Labeler (`labelSegmentsWithGemini`,
`src/pages/api/analyze.ts` lines 185-259) -/

structure RawSegment where
  page : Nat
  bbox : Bbox
  text : Str
deriving DecidableEq, Repr

/-- A labeled segment: `risk` and `simple` hold raw JSON values because the
source copies them from the parsed capability output without validation. -/
structure LabeledSegment where
  id : Str
  page : Nat
  bbox : Bbox
  text : Str
  risk : Json
  simple : Json
deriving Repr

/-- `txt.replace(/```json|```/g, '')`: remove every occurrence, the longer
alternative winning at each position (fuel-structural; `length + 1`
always suffices). -/
def stripTicksAllF : Nat → Str → Str
  | 0, s => s
  | _ + 1, [] => []
  | fuel + 1, c :: rest =>
    if (str "```json").isPrefixOf (c :: rest) then stripTicksAllF fuel ((c :: rest).drop 7)
    else if (str "```").isPrefixOf (c :: rest) then stripTicksAllF fuel ((c :: rest).drop 3)
    else c :: stripTicksAllF fuel rest

def stripTicksAll (s : Str) : Str := stripTicksAllF (s.length + 1) s

/-- The inner parse of `labelSegmentsWithGemini` (lines 221-229): clean the
response text, extract the outermost brace span (defaulting to an
empty-labels object), `JSON.parse` it, and read `parsed.labels || []`.
A parse failure — or the throwing `null.labels` access — leaves `labels`
as the initial `[]`. -/
def parseLabels (txt : Str) : Json :=
  let cleanTxt := jsTrim (stripTicksAll txt)
  let jsonStr :=
    match braceMatch cleanTxt with
    | some m => m
    | none => str "\x7b\"labels\":[]\x7d"
  match parseJson jsonStr with
  | none => .arr []
  | some .null => .arr []
  | some j =>
    match jsonGet j (str "labels") with
    | none => .arr []
    | some v => if jsonTruthy v then v else .arr []

/-- `labels.find(l => l.i === i)` with JS semantics: a `null` element makes
the property access throw; non-object elements yield `undefined` for `l.i`,
which is never strictly equal to the number `i`. -/
def findLabel : List Json → Nat → Except Unit (Option Json)
  | [], _ => .ok none
  | .null :: _, _ => .error ()
  | l :: rest, i =>
    match jsonGet l (str "i") with
    | some (.num q) => if q == (i : ℚ) then .ok (some l) else findLabel rest i
    | _ => findLabel rest i

/-- The merge loop over `sampleSegments` (lines 232-243), starting at index
`i`; `label?.risk || 'low'` and `label?.simple || 'Standard legal text.'`. -/
def mergeLoop (xs : List Json) : Nat → List RawSegment → Except Unit (List LabeledSegment)
  | _, [] => .ok []
  | i, source :: rest => do
    let lbl ← findLabel xs i
    let out ← mergeLoop xs (i + 1) rest
    .ok ({ id := str "seg-" ++ natStr i
           page := source.page
           bbox := source.bbox
           text := source.text
           risk :=
             match lbl.bind (fun l => jsonGet l (str "risk")) with
             | some v => if jsonTruthy v then v else .str (str "low")
             | none => .str (str "low")
           simple :=
             match lbl.bind (fun l => jsonGet l (str "simple")) with
             | some v => if jsonTruthy v then v else .str (str "Standard legal text.")
             | none => .str (str "Standard legal text.") } :: out)

/-- The catch-branch output of `labelSegmentsWithGemini` (lines 244-258):
every sampled segment with the lowest risk and a requires-review note. -/
def requiresReviewOut (sampleSegments : List RawSegment) : List LabeledSegment :=
  jsMapIdx (fun i source =>
    { id := str "seg-" ++ natStr i
      page := source.page
      bbox := source.bbox
      text := source.text
      risk := .str (str "low")
      simple := .str (str "Legal text requiring review.") }) sampleSegments

/-- The batch sent to the delegated capability: at most 50 segments
(`maxSegments = Math.min(segments.length, 50)`). -/
def sampleSegmentsOf (segments : List RawSegment) : List RawSegment :=
  segments.take (min segments.length 50)

/-- `labelSegmentsWithGemini(segments, language)`, the generation call's
outcome abstracted: `.error` models a thrown capability error, `.ok t?` a
response whose candidate text is `t?` (`none` falls back to an empty-labels
JSON literal).  A thrown merge (`labels` not an array, or a `null` element)
lands in the same catch branch as a capability error. -/
def labelSegmentsWithGemini (segments : List RawSegment)
    (gen : Except Unit (Option Str)) : List LabeledSegment :=
  let sampleSegments := sampleSegmentsOf segments
  match gen with
  | .error _ => requiresReviewOut sampleSegments
  | .ok t? =>
    let txt := t?.getD (str "\x7b\"labels\":[]\x7d")
    let labelsV := parseLabels txt
    let merged :=
      match labelsV with
      | .arr xs => mergeLoop xs 0 sampleSegments
      | _ => .error ()
    match merged with
    | .ok out => out
    | .error _ => requiresReviewOut sampleSegments

/-! ## Page Content Analyzer and page batch
(`analyzePageContent` / `extractAndAnalyzePages`,
`src/pages/api/analyze.ts` lines 281-498) -/

structure KeyPoint where
  type : Str
  title : Str
  explanation : Str
deriving DecidableEq, Repr

structure PageAnalysis where
  pageNumber : Nat
  text : Str
  summary : Str
  keyPoints : List KeyPoint
  riskLevel : Str
  clauses : List Clause
deriving DecidableEq, Repr

/-- `replace(/\s+/g, ' ')`. -/
def collapseWsAux (inWs : Bool) : Str → Str
  | [] => []
  | c :: rest =>
    if isJsWs c then
      if inWs then collapseWsAux true rest else ' ' :: collapseWsAux true rest
    else c :: collapseWsAux false rest

def collapseWs (s : Str) : Str := collapseWsAux false s

/-- `analyzePageContent(pageText, pageNumber, language)`: the deterministic
keyword-based per-page analysis. -/
def analyzePageContent (pageText : Str) (pageNumber : Nat) : PageAnalysis :=
  let words := jsToLower pageText
  let hasPayment := containsSub words (str "payment") || containsSub words (str "pay") ||
    containsSub words (str "fee") || containsSub words (str "cost") ||
    containsSub words (str "price")
  let hasTermination := containsSub words (str "terminate") || containsSub words (str "cancel") ||
    containsSub words (str "end") || containsSub words (str "expire")
  let hasLiability := containsSub words (str "liability") || containsSub words (str "responsible") ||
    containsSub words (str "damages") || containsSub words (str "loss")
  let hasArbitration := containsSub words (str "arbitration") || containsSub words (str "dispute") ||
    containsSub words (str "court")
  let hasConfidential := containsSub words (str "confidential") ||
    containsSub words (str "non-disclosure") || containsSub words (str "secret")
  let hasIntellectual := containsSub words (str "intellectual") || containsSub words (str "copyright") ||
    containsSub words (str "trademark")
  let riskLevel :=
    if hasLiability || hasArbitration then str "high"
    else if hasPayment || hasTermination || hasConfidential || hasIntellectual then str "medium"
    else str "low"
  let summary :=
    if pageText.length < 100 then
      str "Page " ++ natStr pageNumber ++
        str " contains brief content, likely introductory or transitional material."
    else
      let contentTypes : List Str :=
        (if hasPayment then [str "payment terms"] else []) ++
        (if hasTermination then [str "termination procedures"] else []) ++
        (if hasLiability then [str "liability provisions"] else []) ++
        (if hasArbitration then [str "dispute resolution"] else []) ++
        (if hasConfidential then [str "confidentiality requirements"] else []) ++
        (if hasIntellectual then [str "intellectual property rights"] else [])
      if contentTypes.length > 0 then
        let snippet := jsTrim (collapseWs (jsSlice pageText 0 200))
        str "Page " ++ natStr pageNumber ++ str " primarily covers " ++
          List.intercalate (str ", ") contentTypes ++
          str ". Example text: \"" ++ snippet ++ str "\" " ++
          (if riskLevel == str "high" then
            str "This page contains important provisions that could significantly impact your rights and obligations. Pay careful attention to these terms as they may affect your financial exposure or legal options."
           else if riskLevel == str "medium" then
            str "This page contains terms that require attention and understanding. While not immediately high-risk, these provisions could affect your costs, responsibilities, or procedures under the agreement."
           else
            str "This page contains routine provisions that follow standard practices. These terms are generally administrative or procedural in nature.")
      else
        if containsSub words (str "definition") || containsSub words (str "means") ||
            containsSub words (str "include") then
          str "Page " ++ natStr pageNumber ++
            str " appears to contain definitions and explanatory content that establishes the framework for understanding the rest of the document."
        else if containsSub words (str "party") || containsSub words (str "agreement") ||
            containsSub words (str "contract") then
          str "Page " ++ natStr pageNumber ++
            str " contains general agreement terms and structural provisions that establish the basic framework of the relationship between the parties."
        else
          str "Page " ++ natStr pageNumber ++
            str " contains substantive provisions of the agreement. The specific terms on this page contribute to the overall rights, obligations, and procedures established by this document."
  let keyPoints : List KeyPoint :=
    (if hasPayment then
      [⟨str "medium", str "Payment and Financial Terms",
        str "This page contains information about payment obligations, costs, or financial responsibilities. Understanding these terms is important for budgeting and avoiding unexpected expenses."⟩]
     else []) ++
    (if hasLiability then
      [⟨str "high", str "Liability and Risk Allocation",
        str "This page addresses who is responsible for various types of damages or losses. These provisions can significantly impact your financial exposure if problems arise."⟩]
     else []) ++
    (if hasArbitration then
      [⟨str "high", str "Dispute Resolution",
        str "This page covers how disagreements will be resolved. These terms can affect your legal rights and options for pursuing claims."⟩]
     else []) ++
    (if hasTermination then
      [⟨str "medium", str "Termination and Exit Procedures",
        str "This page explains how the agreement can end and what procedures must be followed. Understanding these terms helps maintain your flexibility."⟩]
     else []) ++
    (if hasConfidential then
      [⟨str "medium", str "Confidentiality Requirements",
        str "This page contains obligations to keep certain information secret. These terms can affect what you can discuss about your relationship or business."⟩]
     else []) ++
    (if hasIntellectual then
      [⟨str "medium", str "Intellectual Property Rights",
        str "This page addresses ownership of ideas, creations, or innovations. These terms can affect your rights to work you create or contribute."⟩]
     else [])
  let keyPoints :=
    if keyPoints.isEmpty then
      if pageNumber = 1 then
        [⟨str "info", str "Document Introduction",
          str "This opening page typically establishes the parties to the agreement and provides foundational information for understanding the document."⟩]
      else
        [⟨str "info", str "General Provisions",
          str "This page contains provisions that support the overall agreement structure and establish important terms or procedures."⟩]
    else keyPoints
  { pageNumber := pageNumber, text := pageText, summary := summary,
    keyPoints := keyPoints, riskLevel := riskLevel, clauses := [] }

/-- Per-page outcome of the pdfjs extraction loop: the page's extracted text
together with a flag abstracting whether the per-page analysis call throws, or
a page-level extraction error (which pushes `''` into `pageTexts`). -/
inductive PageOutcome
  | ok (text : Str) (analyzeFails : Bool)
  | extractErr
deriving Repr

def pageTextOf : PageOutcome → Str
  | .ok t _ => t
  | .extractErr => []

def pageAnalyzeFails : PageOutcome → Bool
  | .ok _ f => f
  | .extractErr => false

/-- One iteration of the analysis loop (lines 325-358): pages whose trimmed
text is shorter than 50 characters get a minimal entry; a throwing per-page
analysis gets an error entry; otherwise `analyzePageContent` runs. -/
def analyzeStep (txt : Str) (pageNum : Nat) (fails : Bool) : PageAnalysis :=
  if (jsTrim txt).length < 50 then
    { pageNumber := pageNum, text := txt
      summary := str "Page " ++ natStr pageNum ++ str " contains minimal text content."
      keyPoints := [], riskLevel := str "low", clauses := [] }
  else if fails then
    { pageNumber := pageNum, text := txt
      summary := str "Page " ++ natStr pageNum ++ str " could not be analyzed due to an error."
      keyPoints := [], riskLevel := str "low", clauses := [] }
  else analyzePageContent txt pageNum

/-- `extractAndAnalyzePages(buffer, language)`: the whole-document extraction
either fails (catch branch, returning `[]`) or yields one outcome per physical
page; each page `i` then produces exactly one entry numbered `i + 1`. -/
def extractAndAnalyzePages (outcome : Except Unit (List PageOutcome)) : List PageAnalysis :=
  match outcome with
  | .error _ => []
  | .ok pages =>
    jsMapIdx (fun i p => analyzeStep (pageTextOf p) (i + 1) (pageAnalyzeFails p)) pages

/-! ## Orchestrator clause-page assignment (`handler`,
`src/pages/api/analyze.ts` lines 83-91) -/

/-- JS `!clause.page` (falsy: `undefined` or `0`). -/
def pageFalsy : Option Nat → Bool
  | none => true
  | some 0 => true
  | some _ => false

/-- The orchestrator's final clause-page assignment: a clause lacking a page
gets `Math.floor(index / Math.max(1, Math.floor(clauses.length / pageAnalysis.length))) + 1`.
When `pageAnalysis.length = 0` the JS division yields `Infinity` and
`index / Infinity` floors to `0`, so the assigned page is `1`; that IEEE
behaviour is modelled by the explicit case split. -/
def assignPages (clauses : List Clause) (pageCount : Nat) : List Clause :=
  jsMapIdx (fun index c =>
    if pageFalsy c.page then
      { c with page := some (if pageCount = 0 then 1
          else index / max 1 (clauses.length / pageCount) + 1) }
    else c) clauses

/-! ## Observation helpers for stating properties of untyped JSON results -/

/-- Read a string-valued field of a parsed JSON object. -/
def jsonStrField (j : Json) (k : String) : Option Str :=
  match jsonGet j (str k) with
  | some (.str s) => some s
  | _ => none

/-- The `risk` strings of the `clauses` array of a parsed result. -/
def jsonClausesRiskStrs (j : Json) : Option (List (Option Str)) :=
  match jsonGet j (str "clauses") with
  | some (.arr xs) => some (xs.map (fun c => jsonStrField c "risk"))
  | _ => none

/-- Whether the document risk analyzer returned the parsed capability JSON. -/
def geminiParsedOk : GeminiOut → Bool
  | .parsed _ => true
  | .fallback _ => false

def geminiFallbackSummary : GeminiOut → Option Str
  | .fallback r => some r.summary
  | .parsed _ => none

def geminiFallbackClauseTitles : GeminiOut → Option (List Str)
  | .fallback r => some (r.clauses.map (·.title))
  | .parsed _ => none

def labeledRiskStr (s : LabeledSegment) : Option Str :=
  match s.risk with
  | .str v => some v
  | _ => none

def labeledSimpleStr (s : LabeledSegment) : Option Str :=
  match s.simple with
  | .str v => some v
  | _ => none

/-! ## Concrete fixtures used by the claim theorems -/

/-- A text containing a government-ID pattern. -/
def c1text : Str := str "My ID is 123-45-6789 ok"

/-- A syntactically complete capability output whose `overallRisk` is `low`
while its single clause has `risk` `high`. -/
def c2CapTxt : Str :=
  str "\x7b\"summary\":\"ok\",\"overallRisk\":\"low\",\"clauses\":[\x7b\"id\":\"c1\",\"risk\":\"high\"\x7d],\"language\":\"en\"\x7d"

/-- A document text matching none of the 18 topic keyword sets. -/
def c4text : Str := str "zzzz yyyy xxxx"

/-- Capability output that is valid JSON except for the missing final closing
brace, with a >50-character summary, whose `clauses` array is empty (so the
text contains no closing brace at all). -/
def c8FlatTxt : Str :=
  str "\x7b\"summary\":\"This agreement contains several provisions that require careful review by a reader\",\"overallRisk\":\"low\",\"clauses\":[],\"language\":\"en\""

/-- The same capability output but with one (closed) clause object inside the
`clauses` array; still valid JSON except for the missing final closing brace. -/
def c8NestedTxt : Str :=
  str "\x7b\"summary\":\"This agreement contains several provisions that require careful review by a reader\",\"overallRisk\":\"low\",\"clauses\":[\x7b\"id\":\"c1\"\x7d],\"language\":\"en\""

/-- The summary value carried by both `c8FlatTxt` and `c8NestedTxt`. -/
def c8Summary : Str :=
  str "This agreement contains several provisions that require careful review by a reader"

/-- A document text whose mock analysis yields 7 clauses (intro + 6 detected
topic areas). -/
def c10text : Str := str "payment terminate liability arbitration renew intellectual"

/-- A minimal clause with no page, for exercising `assignPages`. -/
def blankClause (n : Nat) : Clause :=
  { id := 'c' :: natStr n, title := [], original := [], simple := [], why := [],
    risk := .low, citations := [], page := none }

/-- A minimal raw segment fixture. -/
def seg0 : RawSegment := { page := 1, bbox := ⟨0, 0, 1, 1⟩, text := str "some segment text" }

/-- A minimal segmentless analysis-result fixture. -/
def segmentlessResult : AnalysisResult :=
  { summary := [], overallRisk := .low, clauses := [blankClause 1],
    language := .en, segments := none }

/-! ## Helper lemmas -/

theorem length_mapIdxFrom (f : Nat → α → β) :
    ∀ (i : Nat) (l : List α), (mapIdxFrom f i l).length = l.length := by
  intro i l
  induction l generalizing i with
  | nil => rfl
  | cons a t ih => simp [mapIdxFrom, ih]

theorem length_jsMapIdx (f : Nat → α → β) (l : List α) :
    (jsMapIdx f l).length = l.length := length_mapIdxFrom f 0 l

theorem map_mapIdxFrom (f : Nat → α → β) (g : β → γ) (h : α → γ)
    (hfg : ∀ i a, g (f i a) = h a) :
    ∀ (i : Nat) (l : List α), (mapIdxFrom f i l).map g = l.map h := by
  intro i l
  induction l generalizing i with
  | nil => rfl
  | cons a t ih => simp [mapIdxFrom, hfg, ih]

theorem map_jsMapIdx (f : Nat → α → β) (g : β → γ) (h : α → γ)
    (hfg : ∀ i a, g (f i a) = h a) (l : List α) :
    (jsMapIdx f l).map g = l.map h := map_mapIdxFrom f g h hfg 0 l

theorem map_mapIdxFrom_idx (f : Nat → α → β) (g : β → Nat)
    (hfg : ∀ i a, g (f i a) = i + 1) :
    ∀ (i : Nat) (l : List α), (mapIdxFrom f i l).map g = List.range' (i + 1) l.length := by
  intro i l
  induction l generalizing i with
  | nil => rfl
  | cons a t ih => simp [mapIdxFrom, hfg, ih, List.range'_succ]

theorem all_mapIdxFrom (f : Nat → α → β) (q : β → Bool)
    (hq : ∀ i a, q (f i a) = true) :
    ∀ (i : Nat) (l : List α), (mapIdxFrom f i l).all q = true := by
  intro i l
  induction l generalizing i with
  | nil => rfl
  | cons a t ih => simp [mapIdxFrom, hq, ih]

/-- The `riskCount`-based aggregation of the source equals the `riskMax` fold
over the clause risk list. -/
theorem riskCount_eq_foldr (l : List RiskLevel) :
    (if 0 < l.count .high then RiskLevel.high
     else if 0 < l.count .medium then RiskLevel.medium
     else RiskLevel.low)
    = l.foldr riskMax .low := by
  induction l with
  | nil => simp
  | cons h t ih =>
    cases h with
    | high => simp [List.count_cons, riskMax]
    | medium =>
      rw [List.foldr_cons, ← ih]
      by_cases hh : 0 < t.count RiskLevel.high <;>
        by_cases hm : 0 < t.count RiskLevel.medium <;>
          simp [List.count_cons, hh, hm, riskMax]
    | low =>
      rw [List.foldr_cons, ← ih]
      by_cases hh : 0 < t.count RiskLevel.high <;>
        by_cases hm : 0 < t.count RiskLevel.medium <;>
          simp [List.count_cons, hh, hm, riskMax]

theorem all_map_comp (l : List α) (f : α → β) (q : β → Bool) :
    (l.map f).all q = l.all (fun a => q (f a)) := by
  induction l with
  | nil => rfl
  | cons a t ih => simp [ih]

theorem take_min_length (l : List α) (k : Nat) : l.take (min l.length k) = l.take k := by
  rcases Nat.le_total l.length k with h | h
  · rw [Nat.min_eq_left h, List.take_length, List.take_of_length_le h]
  · rw [Nat.min_eq_right h]

theorem map_const_replicate (l : List α) (b : β) :
    l.map (fun _ => b) = List.replicate l.length b := by
  induction l with
  | nil => rfl
  | cons a t ih => simp [ih, List.replicate_succ]

theorem length_sampleSegmentsOf (segments : List RawSegment) :
    (sampleSegmentsOf segments).length = min segments.length 50 := by
  simp only [sampleSegmentsOf, List.length_take]
  omega

theorem sampleSegmentsOf_eq_take (segments : List RawSegment) :
    sampleSegmentsOf segments = segments.take 50 := take_min_length _ _

/-- The catch-branch output: one entry per sampled segment, preserving text
and page, all at risk `low` with the requires-review explanation. -/
theorem requiresReviewOut_proj (sample : List RawSegment) :
    (requiresReviewOut sample).length = sample.length ∧
    (requiresReviewOut sample).map (·.text) = sample.map (·.text) ∧
    (requiresReviewOut sample).map (·.page) = sample.map (·.page) ∧
    (requiresReviewOut sample).map labeledRiskStr =
      List.replicate sample.length (some (str "low")) ∧
    (requiresReviewOut sample).map labeledSimpleStr =
      List.replicate sample.length (some (str "Legal text requiring review.")) := by
  unfold requiresReviewOut
  refine ⟨length_jsMapIdx _ _, ?_, ?_, ?_, ?_⟩
  · apply map_jsMapIdx
    intro i a; rfl
  · apply map_jsMapIdx
    intro i a; rfl
  · refine Eq.trans ?_ (map_const_replicate sample (some (str "low")))
    apply map_jsMapIdx
    intro i a; rfl
  · refine Eq.trans ?_
      (map_const_replicate sample (some (str "Legal text requiring review.")))
    apply map_jsMapIdx
    intro i a; rfl

/-- A successful merge yields one output per sampled segment, preserving text
and page. -/
theorem mergeLoop_ok_proj (xs : List Json) :
    ∀ (srcs : List RawSegment) (i : Nat) (out : List LabeledSegment),
      mergeLoop xs i srcs = .ok out →
      out.map (·.text) = srcs.map (·.text) ∧
      out.map (·.page) = srcs.map (·.page) ∧
      out.length = srcs.length := by
  intro srcs
  induction srcs with
  | nil =>
    intro i out h
    simp only [mergeLoop] at h
    cases h
    exact ⟨rfl, rfl, rfl⟩
  | cons s t ih =>
    intro i out h
    rw [mergeLoop] at h
    cases hf : findLabel xs i with
    | error e => rw [hf] at h; simp [Bind.bind, Except.bind] at h
    | ok lbl =>
      rw [hf] at h
      cases hm : mergeLoop xs (i + 1) t with
      | error e => rw [hm] at h; simp [Bind.bind, Except.bind] at h
      | ok out' =>
        rw [hm] at h
        simp only [Bind.bind, Except.bind, Except.ok.injEq] at h
        obtain ⟨h1, h2, h3⟩ := ih (i + 1) out' hm
        subst h
        exact ⟨by simp [h1], by simp [h2], by simp [h3]⟩

/-- Merging against an empty labels array defaults every sampled segment to
risk `low` and the `Standard legal text.` explanation. -/
theorem mergeLoop_nil_proj :
    ∀ (srcs : List RawSegment) (i : Nat), ∃ out,
      mergeLoop [] i srcs = .ok out ∧
      out.map labeledRiskStr = List.replicate srcs.length (some (str "low")) ∧
      out.map labeledSimpleStr =
        List.replicate srcs.length (some (str "Standard legal text.")) ∧
      out.map (·.text) = srcs.map (·.text) ∧
      out.length = srcs.length := by
  intro srcs
  induction srcs with
  | nil => intro i; exact ⟨[], rfl, rfl, rfl, rfl, rfl⟩
  | cons s t ih =>
    intro i
    obtain ⟨out, ho, h1, h2, h3, h4⟩ := ih (i + 1)
    refine ⟨{ id := str "seg-" ++ natStr i, page := s.page, bbox := s.bbox,
              text := s.text, risk := .str (str "low"),
              simple := .str (str "Standard legal text.") } :: out, ?_, ?_, ?_, ?_, ?_⟩
    · rw [mergeLoop]
      simp [findLabel, Bind.bind, Except.bind, ho]
    · simp [h1, labeledRiskStr, List.replicate_succ]
    · simp [h2, labeledSimpleStr, List.replicate_succ]
    · simp [h3]
    · simp [h4]

/-- Unfolding equations for the two outcome branches of the labeler. -/
theorem labelSegments_err_eq (segments : List RawSegment) :
    labelSegmentsWithGemini segments (.error ()) =
      requiresReviewOut (sampleSegmentsOf segments) := rfl

theorem labelSegments_ok_eq (segments : List RawSegment) (t? : Option Str) :
    labelSegmentsWithGemini segments (.ok t?) =
      (match (match parseLabels (t?.getD (str "\x7b\"labels\":[]\x7d")) with
              | Json.arr xs => mergeLoop xs 0 (sampleSegmentsOf segments)
              | _ => (.error () : Except Unit (List LabeledSegment))) with
       | .ok out => out
       | .error _ => requiresReviewOut (sampleSegmentsOf segments)) := rfl

/-- On a non-thrown capability call the labeler output is either the catch
branch (requires-review defaults) or a successful merge. -/
theorem labelSegments_ok_shape (segments : List RawSegment) (t? : Option Str) :
    labelSegmentsWithGemini segments (.ok t?) =
      requiresReviewOut (sampleSegmentsOf segments) ∨
    ∃ xs out, mergeLoop xs 0 (sampleSegmentsOf segments) = Except.ok out ∧
      labelSegmentsWithGemini segments (.ok t?) = out := by
  cases hl : parseLabels (t?.getD (str "\x7b\"labels\":[]\x7d")) with
  | arr xs =>
    have key : labelSegmentsWithGemini segments (.ok t?) =
        (match mergeLoop xs 0 (sampleSegmentsOf segments) with
         | Except.ok out => out
         | Except.error _ => requiresReviewOut (sampleSegmentsOf segments)) := by
      rw [labelSegments_ok_eq, hl]
    cases hm : mergeLoop xs 0 (sampleSegmentsOf segments) with
    | error e => rw [hm] at key; exact Or.inl key
    | ok out => rw [hm] at key; exact Or.inr ⟨xs, out, hm, key⟩
  | null => exact Or.inl (by rw [labelSegments_ok_eq, hl])
  | bool b => exact Or.inl (by rw [labelSegments_ok_eq, hl])
  | num q => exact Or.inl (by rw [labelSegments_ok_eq, hl])
  | str s' => exact Or.inl (by rw [labelSegments_ok_eq, hl])
  | obj fs => exact Or.inl (by rw [labelSegments_ok_eq, hl])

theorem map_mapIdxFrom_ifun (f : Nat → α → β) (g : β → γ) (h : Nat → γ)
    (hfg : ∀ i a, g (f i a) = h i) :
    ∀ (i : Nat) (l : List α), (mapIdxFrom f i l).map g = (List.range' i l.length).map h := by
  intro i l
  induction l generalizing i with
  | nil => rfl
  | cons a t ih => simp [mapIdxFrom, hfg, ih, List.range'_succ]

/-- Unfolding equation for the segment-fallback step on a segmentless
result. -/
theorem addFallbackSegments_none (ai : AnalysisResult) (h : ai.segments = none) :
    addFallbackSegments ai =
      { ai with segments := some (jsMapIdx mkFallbackSegment ai.clauses) } := by
  simp [addFallbackSegments, h]

/-! ## Claim theorems -/

/-- Claim C1, counterexample: when the delegated redaction call raises an
error (non-mock mode), the analyze-text route proceeds with the raw text —
the government-ID pattern `123-45-6789` survives into analysis even though
the regex fallback would have redacted it; the pages-route redactor behaves
the same way.  This refutes "the pipeline falls back to the deterministic
regex redactor ... the text that proceeds into analysis has those PII
patterns replaced". -/
theorem C1_counterexample :
    postRedactStep false (.error ()) c1text = c1text ∧
    redactWithDLP (.error ()) c1text = c1text ∧
    containsSub c1text (str "123-45-6789") = true ∧
    redactFallback c1text = str "My ID is [SSN_REDACTED] ok" ∧
    c1text ≠ str "My ID is [SSN_REDACTED] ok" :=
  ⟨by decide, by decide, by decide, by decide, by decide⟩

/-- Claim C1, amended: the regex fallback runs exactly when the delegated
capability is unavailable (mock mode, for non-blank input); when the
delegated call raises an error, both routes proceed with the unredacted
input text (unredacted text is not a last resort but the immediate
error behaviour). -/
theorem C1_amended_redaction_fallback (t : Str) (o : Except Unit (Option Str)) :
    postRedactStep true o t =
      (if t.isEmpty || (jsTrim t).isEmpty then t else redactFallback t) ∧
    postRedactStep false (.error ()) t = t ∧
    redactWithDLP (.error ()) t = t := by
  refine ⟨?_, ?_, rfl⟩ <;>
    by_cases h : (t.isEmpty || (jsTrim t).isEmpty) = true <;>
      simp [postRedactStep, redactPIIWithDLP, h]

/-- In every branch, the page-analysis entry carries the page number it was
built for. -/
theorem analyzeStep_pageNumber (t : Str) (n : Nat) (f : Bool) :
    (analyzeStep t n f).pageNumber = n := by
  unfold analyzeStep
  split
  · rfl
  · split
    · rfl
    · rfl

/-- Claim C2, counterexample: the document risk analyzer returns the parsed
capability JSON without validation, so the system can produce an
AnalysisResult whose overallRisk is `low` while one of its clauses is `high`
— overallRisk is then not the maximum clause risk. -/
theorem C2_counterexample :
    ∃ j, analyzeWithGeminiPost c2CapTxt (str "doc") .en = .parsed j ∧
      jsonStrField j "overallRisk" = some (str "low") ∧
      jsonClausesRiskStrs j = some [some (str "high")] ∧
      str "low" ≠ str "high" :=
  ⟨_, rfl, by decide, by decide, by decide⟩

/-- Claim C2, amended: every AnalysisResult produced by the fallback/mock
engine satisfies the aggregation rule — its overallRisk equals the
`low < medium < high` maximum of its clause risks (`low` for an empty fold);
results parsed from the delegated capability are passed through without this
validation (see the counterexample). -/
theorem C2_amended_mock_risk_aggregation (text : Str) (language : Lang) :
    (generateMockAnalysis text language).overallRisk =
      ((generateMockAnalysis text language).clauses.map (·.risk)).foldr riskMax .low := by
  simp only [generateMockAnalysis]
  exact riskCount_eq_foldr _

/-- Claim C3: whenever the whole-document page extraction succeeds with N
physical pages, the page-analysis step returns exactly N entries whose
pageNumber values are exactly 1..N, whatever the per-page extraction and
analysis outcomes are — so an individual page failure never aborts the batch;
moreover a page whose extraction failed still yields its minimal-default
entry in position (third conjunct). -/
theorem C3_page_coverage (pages : List PageOutcome) :
    (extractAndAnalyzePages (.ok pages)).length = pages.length ∧
    (extractAndAnalyzePages (.ok pages)).map (·.pageNumber) =
      List.range' 1 pages.length ∧
    extractAndAnalyzePages (.ok [.extractErr]) =
      [{ pageNumber := 1, text := [],
         summary := str "Page 1 contains minimal text content.",
         keyPoints := [], riskLevel := str "low", clauses := [] }] := by
  refine ⟨length_jsMapIdx _ _, ?_, by decide⟩
  exact map_mapIdxFrom_idx _ _ (fun i p => analyzeStep_pageNumber _ _ _) 0 pages

/-- Claim C5, counterexample: with 3 pageless clauses and 2 analyzed pages,
the orchestrator's even-distribution formula assigns pages 1, 2, 3 — the
clause at index 2 receives page 3, which lies outside the range 1..2 of
existing pages. -/
theorem C5_counterexample :
    (assignPages [blankClause 1, blankClause 2, blankClause 3] 2).map (·.page) =
      [some 1, some 2, some 3] ∧ ¬ (3 : Nat) ≤ 2 :=
  ⟨by decide, by decide⟩

/-- Claim C5, amended: after the orchestrator's final step, every clause in
the result has a defined page that is at least 1 (and no clause is dropped);
the assigned page is not guaranteed to lie within 1..N — it can exceed the
analyzed page count (see the counterexample). -/
theorem C5_amended_pages_defined (clauses : List Clause) (pageCount : Nat) :
    (assignPages clauses pageCount).length = clauses.length ∧
    ((assignPages clauses pageCount).map (·.page)).all
      (fun p => p.isSome && decide (1 ≤ p.getD 0)) = true := by
  refine ⟨length_jsMapIdx _ _, ?_⟩
  rw [all_map_comp]
  refine all_mapIdxFrom _ _ ?_ 0 clauses
  intro i c
  by_cases h : pageFalsy c.page = true
  · by_cases hN : pageCount = 0 <;>
      simp [h, hN, Function.comp, Nat.le_add_left]
  · have : ∃ k, c.page = some (k + 1) := by
      cases hp : c.page with
      | none => rw [hp] at h; simp [pageFalsy] at h
      | some k =>
        cases k with
        | zero => rw [hp] at h; simp [pageFalsy] at h
        | succ k => exact ⟨k, rfl⟩
    obtain ⟨k, hk⟩ := this
    simp [h, hk, pageFalsy, Nat.le_add_left]

/-- Claim C6, counterexample: when the capability returns unparseable output
(here the literal text `garbage`), every sampled segment is indeed returned
at risk low — but with the explanation `Standard legal text.`, which is not
the requires-review explanation the claim asserts; the requires-review text
(`Legal text requiring review.`) is produced only when the capability call
itself throws. -/
theorem C6_counterexample :
    (labelSegmentsWithGemini [seg0] (.ok (some (str "garbage")))).length = 1 ∧
    (labelSegmentsWithGemini [seg0] (.ok (some (str "garbage")))).map labeledRiskStr =
      [some (str "low")] ∧
    (labelSegmentsWithGemini [seg0] (.ok (some (str "garbage")))).map labeledSimpleStr =
      [some (str "Standard legal text.")] ∧
    str "Standard legal text." ≠ str "Legal text requiring review." :=
  ⟨by decide, by decide, by decide, by decide⟩

/-- Claim C6, amended: the segment risk labeler never omits a segment of the
batch it processed — when the delegated call throws, every sampled segment
gets risk low and the generic explanation `Legal text requiring review.`;
when the output is unparseable (no labels recovered), every sampled segment
gets risk low and the generic explanation `Standard legal text.`. -/
theorem C6_amended_fallback_labels (segments : List RawSegment) (txt : Str)
    (h : parseLabels txt = .arr []) :
    ((labelSegmentsWithGemini segments (.error ())).map labeledRiskStr =
        List.replicate (min segments.length 50) (some (str "low")) ∧
      (labelSegmentsWithGemini segments (.error ())).map labeledSimpleStr =
        List.replicate (min segments.length 50)
          (some (str "Legal text requiring review.")) ∧
      (labelSegmentsWithGemini segments (.error ())).length =
        min segments.length 50) ∧
    ((labelSegmentsWithGemini segments (.ok (some txt))).map labeledRiskStr =
        List.replicate (min segments.length 50) (some (str "low")) ∧
      (labelSegmentsWithGemini segments (.ok (some txt))).map labeledSimpleStr =
        List.replicate (min segments.length 50) (some (str "Standard legal text.")) ∧
      (labelSegmentsWithGemini segments (.ok (some txt))).length =
        min segments.length 50) := by
  have hlen := length_sampleSegmentsOf segments
  obtain ⟨hq, ht, hp, hr, hs⟩ := requiresReviewOut_proj (sampleSegmentsOf segments)
  constructor
  · rw [labelSegments_err_eq, hr, hs, hq, hlen]
    exact ⟨rfl, rfl, rfl⟩
  · obtain ⟨out, ho, h1, h2, h3, h4⟩ :=
      mergeLoop_nil_proj (sampleSegmentsOf segments) 0
    have key : labelSegmentsWithGemini segments (.ok (some txt)) =
        (match mergeLoop [] 0 (sampleSegmentsOf segments) with
         | Except.ok o => o
         | Except.error _ => requiresReviewOut (sampleSegmentsOf segments)) := by
      rw [labelSegments_ok_eq, Option.getD_some, h]
    rw [ho] at key
    rw [show labelSegmentsWithGemini segments (.ok (some txt)) = out from key,
      h1, h2, h4, hlen]
    exact ⟨rfl, rfl, rfl⟩

/-- Witness for the amended C6 at a concrete batch and a concrete
unparseable capability response. -/
theorem C6_amended_fallback_labels_witness :
    ((labelSegmentsWithGemini [seg0] (.error ())).map labeledSimpleStr =
      List.replicate (min ([seg0] : List RawSegment).length 50)
        (some (str "Legal text requiring review."))) ∧
    ((labelSegmentsWithGemini [seg0] (.ok (some (str "garbage")))).map labeledSimpleStr =
      List.replicate (min ([seg0] : List RawSegment).length 50)
        (some (str "Standard legal text."))) :=
  ⟨(C6_amended_fallback_labels [seg0] (str "garbage") rfl).1.2.1,
   (C6_amended_fallback_labels [seg0] (str "garbage") rfl).2.2.1⟩

/-- Claim C7: for every input segment list and every capability outcome, the
labeler sends at most 50 segments to the delegated capability, returns
exactly min(n, 50) labeled segments without throwing (parse and merge
failures land in the internal catch branch), and every output entry carries
the text and page of the corresponding input segment among the first 50 —
segments beyond the cap appear in no output of this pass. -/
theorem C7_segment_cap (segments : List RawSegment) (gen : Except Unit (Option Str)) :
    (sampleSegmentsOf segments).length ≤ 50 ∧
    (labelSegmentsWithGemini segments gen).length = min segments.length 50 ∧
    (labelSegmentsWithGemini segments gen).map (·.text) =
      (segments.take 50).map (·.text) ∧
    (labelSegmentsWithGemini segments gen).map (·.page) =
      (segments.take 50).map (·.page) := by
  have hlen := length_sampleSegmentsOf segments
  have htake := sampleSegmentsOf_eq_take segments
  obtain ⟨hq, ht, hp, hr, hs⟩ := requiresReviewOut_proj (sampleSegmentsOf segments)
  refine ⟨by rw [hlen]; omega, ?_⟩
  have hrr : (requiresReviewOut (sampleSegmentsOf segments)).length = min segments.length 50 ∧
      (requiresReviewOut (sampleSegmentsOf segments)).map (·.text) =
        (segments.take 50).map (·.text) ∧
      (requiresReviewOut (sampleSegmentsOf segments)).map (·.page) =
        (segments.take 50).map (·.page) := by
    rw [hq, ht, hp, hlen, htake]
    exact ⟨rfl, rfl, rfl⟩
  cases gen with
  | error e => cases e; rw [labelSegments_err_eq]; exact hrr
  | ok t? =>
    rcases labelSegments_ok_shape segments t? with heq | ⟨xs, out, hm, heq⟩
    · rw [heq]; exact hrr
    · obtain ⟨h1, h2, h3⟩ := mergeLoop_ok_proj xs (sampleSegmentsOf segments) 0 out hm
      rw [heq, h1, h2, h3, hlen, htake]
      exact ⟨rfl, rfl, rfl⟩

/-- Claim C8, counterexample: `c8NestedTxt` is valid JSON except for its
missing final closing brace (appending one brace makes it parse), and it
carries a valid >50-character summary — yet because it contains an earlier
closing brace (a closed clause object), the JSON-extraction step truncates
the text at that brace, the brace-repair is skipped (the truncated text ends
in a brace), parsing fails, and the analyzer returns the salvage fallback
with the generic `Document Review Required` clause instead of repairing and
parsing as the claim states. -/
theorem C8_counterexample :
    (parseJson c8NestedTxt).isSome = false ∧
    (parseJson (c8NestedTxt ++ [ '\x7d' ])).isSome = true ∧
    findSummaryCap c8NestedTxt = some c8Summary ∧
    50 < c8Summary.length ∧
    geminiParsedOk (analyzeWithGeminiPost c8NestedTxt (str "document text") .en) = false ∧
    geminiFallbackSummary (analyzeWithGeminiPost c8NestedTxt (str "document text") .en) =
      some c8Summary ∧
    geminiFallbackClauseTitles (analyzeWithGeminiPost c8NestedTxt (str "document text") .en) =
      some [str "Document Review Required"] :=
  ⟨by decide, by decide, by decide, by decide, by decide, by decide, by decide⟩

/-- Claim C8, amended (restricted as the counterexample forces): when such a
malformed output contains no closing brace at all (here: an empty clauses
array), the analyzer does repair the JSON — appending the missing closing
brace counted by the brace-depth difference — parses it successfully, and
returns the >50-character summary verbatim rather than any fallback. -/
theorem C8_amended_flat_repair :
    (parseJson c8FlatTxt).isSome = false ∧
    c8FlatTxt.count '\x7b' - c8FlatTxt.count '\x7d' = 1 ∧
    repairTruncated c8FlatTxt = c8FlatTxt ++ [ '\x7d' ] ∧
    50 < c8Summary.length ∧
    (∃ j, analyzeWithGeminiPost c8FlatTxt (str "document text") .en = .parsed j ∧
      jsonStrField j "summary" = some c8Summary) :=
  ⟨by decide, by decide, by decide, by decide, _, rfl, by decide⟩

/-- Claim C10: when the analysis result has no segments (absent or empty),
the orchestrator synthesizes exactly one placeholder segment per clause in
clause order, each with page 1 and bbox x = 0.05, y = 0.1 + 0.15·index,
w = 0.9, h = 0.1; and for the concrete mock input yielding 7 clauses, the
synthesized segments' y + h values are 0.2, 0.35, ..., 1.1 — the last one
lying outside the normalized [0,1] range. -/
theorem C10_segment_fallback :
    (∀ ai : AnalysisResult, ai.segments = none ∨ ai.segments = some [] →
      (addFallbackSegments ai).segments =
        some (jsMapIdx (fun idx clause =>
          { id := str "fallback-" ++ natStr idx
            page := 1
            bbox := { x := 0.05, y := 0.1 + (idx : ℚ) * 0.15, w := 0.9, h := 0.1 }
            text := jsSlice clause.original 0 100 ++ str "..."
            risk := clause.risk
            simple := clause.simple }) ai.clauses) ∧
      ((addFallbackSegments ai).segments.getD []).length = ai.clauses.length) ∧
    ((postAnalyzeTextMock c10text .en).clauses.length = 7 ∧
      ((postAnalyzeTextMock c10text .en).segments.getD []).map
        (fun s => s.bbox.y + s.bbox.h) =
        [0.2, 0.35, 0.5, 0.65, 0.8, 0.95, 1.1] ∧
      (1 : ℚ) < 1.1) := by
  constructor
  · intro ai hai
    have hseg : (addFallbackSegments ai).segments =
        some (jsMapIdx mkFallbackSegment ai.clauses) := by
      rcases hai with h | h <;> simp [addFallbackSegments, h]
    refine ⟨hseg, ?_⟩
    rw [hseg, Option.getD_some]
    exact length_jsMapIdx _ _
  · have hain : (generateMockAnalysis (postRedactStep true (.ok none) c10text) .en).segments =
        none := rfl
    have hcl : (generateMockAnalysis (postRedactStep true (.ok none) c10text) .en).clauses.length =
        7 := by decide
    have hpost : postAnalyzeTextMock c10text .en =
        { generateMockAnalysis (postRedactStep true (.ok none) c10text) .en with
          segments := some (jsMapIdx mkFallbackSegment
            (generateMockAnalysis (postRedactStep true (.ok none) c10text) .en).clauses) } :=
      addFallbackSegments_none _ hain
    refine ⟨?_, ?_, by norm_num⟩
    · rw [hpost]
      exact hcl
    · rw [hpost]
      show List.map (fun s => s.bbox.y + s.bbox.h)
        (mapIdxFrom mkFallbackSegment 0
          (generateMockAnalysis (postRedactStep true (.ok none) c10text) .en).clauses) =
        [0.2, 0.35, 0.5, 0.65, 0.8, 0.95, 1.1]
      rw [map_mapIdxFrom_ifun mkFallbackSegment (fun s => s.bbox.y + s.bbox.h)
        (fun k => 0.1 + (k : ℚ) * 0.15 + 0.1) (fun i a => rfl) 0, hcl]
      rw [show List.range' 0 7 = [0, 1, 2, 3, 4, 5, 6] from rfl]
      norm_num

/-- Witness for C10 at a concrete segmentless result. -/
theorem C10_segment_fallback_witness :
    (addFallbackSegments segmentlessResult).segments =
      some (jsMapIdx (fun idx clause =>
        { id := str "fallback-" ++ natStr idx
          page := 1
          bbox := { x := 0.05, y := 0.1 + (idx : ℚ) * 0.15, w := 0.9, h := 0.1 }
          text := jsSlice clause.original 0 100 ++ str "..."
          risk := clause.risk
          simple := clause.simple }) segmentlessResult.clauses) :=
  (C10_segment_fallback.1 segmentlessResult (Or.inl rfl)).1

/-- Claim C4, evaluation at the failing input: for a document text matching
none of the 18 topic keyword sets, the fallback engine returns the general
intro clause plus the two `general` filler clauses — 3 clauses in total, not
the claimed minimum of 4 — all at risk low, with `overallRisk` low. -/
theorem C4_failing_input_eval :
    (generateMockAnalysis c4text .en).clauses.length = 3 ∧
    (generateMockAnalysis c4text .en).clauses.map (·.title) =
      [str "Document Structure and Organization",
       str "General Terms and Conditions",
       str "Miscellaneous Provisions"] ∧
    (generateMockAnalysis c4text .en).clauses.map (·.risk) = [.low, .low, .low] ∧
    (generateMockAnalysis c4text .en).overallRisk = .low ∧
    ¬ 4 ≤ (generateMockAnalysis c4text .en).clauses.length :=
  ⟨by decide, by decide, by decide, by decide, by decide⟩

/-! ### Idempotence of the fallback redactor: scan infrastructure -/

theorem ctxA_nil (prev : Option Char) : ctxA prev [] = prev := rfl

theorem ctxA_cons (prev : Option Char) (c : Char) (a : Str) :
    ctxA prev (c :: a) = ctxA (some c) a := by
  cases a with
  | nil => rfl
  | cons b l =>
    unfold ctxA
    rw [List.getLast?_cons_cons]
    cases hg : (b :: l).getLast? with
    | none => exact absurd (List.getLast?_eq_none_iff.mp hg) (by simp)
    | some d => rfl

theorem ctxA_eq_getLast (prev : Option Char) (a : Str) (h : a ≠ []) :
    ctxA prev a = a.getLast? := by
  cases hg : a.getLast? with
  | none => exact absurd (List.getLast?_eq_none_iff.mp hg) h
  | some c => simp [ctxA, hg]

/-- A pass is the identity on a string it matches nowhere. -/
theorem noMatchScan_replaceAll_id (tryAt : Option Char → Str → Option Nat)
    (repl : Str) :
    ∀ (fuel : Nat) (x : Str) (prev : Option Char), x.length < fuel →
      noMatchScan tryAt prev x → replaceAllAux tryAt repl fuel prev x = x := by
  intro fuel
  induction fuel with
  | zero => intro x prev h; omega
  | succ f ih =>
    intro x prev hlen hnm
    cases x with
    | nil => rfl
    | cons c rest =>
      have h1 : tryAt prev (c :: rest) = none := hnm.1
      simp only [replaceAllAux, h1]
      have := ih rest (some c) (by simpa using Nat.lt_of_succ_lt_succ hlen) hnm.2
      rw [this]

/-- Assemble a no-match scan over an append from a no-match scan along the
prefix (with the suffix as pending tail) and one over the suffix. -/
theorem noMatchScan_append (tryAt : Option Char → Str → Option Nat) :
    ∀ (a b : Str) (prev : Option Char),
      noMatchAlong tryAt b prev a →
      noMatchScan tryAt (ctxA prev a) b →
      noMatchScan tryAt prev (a ++ b) := by
  intro a
  induction a with
  | nil => intro b prev _ hb; simpa using hb
  | cons c a ih =>
    intro b prev ha hb
    refine ⟨by simpa using ha.1, ?_⟩
    exact ih b (some c) ha.2 (by rwa [ctxA_cons] at hb)

theorem hypPQ_refl (tryP : Option Char → Str → Option Nat) :
    ∀ (x : Str) (prev : Option Char), HypPQ tryP tryP prev x := by
  intro x
  induction x with
  | nil => intro prev; trivial
  | cons c rest ih => intro prev; exact ⟨fun h => h, ih (some c)⟩

theorem hypPQ_of_noMatch (tryP tryQ : Option Char → Str → Option Nat) :
    ∀ (x : Str) (prev : Option Char), noMatchScan tryP prev x →
      HypPQ tryP tryQ prev x := by
  intro x
  induction x with
  | nil => intro prev _; trivial
  | cons c rest ih => intro prev h; exact ⟨fun _ => h.1, ih (some c) h.2⟩

theorem hypPQ_suffix (tryP tryQ : Option Char → Str → Option Nat) :
    ∀ (x : Str) (L : Nat) (prev : Option Char), HypPQ tryP tryQ prev x →
      HypPQ tryP tryQ (ctxA prev (x.take L)) (x.drop L) := by
  intro x
  induction x with
  | nil => intro L prev _; simp [HypPQ]
  | cons c rest ih =>
    intro L prev h
    cases L with
    | zero => simpa using h
    | succ L =>
      have := ih L (some c) h.2
      simpa [List.take_succ_cons, List.drop_succ_cons, ctxA_cons] using this

/-! ### Characterization of the fixed-shape matcher -/

theorem head?_append_left (a b : Str) (h : a ≠ []) : (a ++ b).head? = a.head? := by
  cases a with
  | nil => exact absurd rfl h
  | cons c t => rfl

theorem shapeOKL_length : ∀ (shape : List (Char → Bool)) (m : Str),
    shapeOKL shape m → m.length = shape.length := by
  intro shape
  induction shape with
  | nil => intro m h; cases m with
    | nil => rfl
    | cons c t => exact absurd h (by simp [shapeOKL])
  | cons p ps ih =>
    intro m h
    cases m with
    | nil => exact absurd h (by simp [shapeOKL])
    | cons c t => simpa using ih t h.2

theorem matchShape_sound : ∀ (shape : List (Char → Bool)) (s rest : Str),
    matchShape shape s = some rest →
    ∃ m, s = m ++ rest ∧ shapeOKL shape m := by
  intro shape
  induction shape with
  | nil =>
    intro s rest h
    simp only [matchShape, Option.some.injEq] at h
    exact ⟨[], by simp [h], trivial⟩
  | cons p ps ih =>
    intro s rest h
    cases s with
    | nil => exact absurd h (by simp [matchShape])
    | cons c cs =>
      by_cases hpc : p c = true
      · simp only [matchShape, hpc, if_true] at h
        obtain ⟨m, hs, hok⟩ := ih cs rest h
        exact ⟨c :: m, by simp [hs], hpc, hok⟩
      · have hf : p c = false := eq_false_of_ne_true hpc
        simp [matchShape, hf] at h

theorem matchShape_complete : ∀ (shape : List (Char → Bool)) (m rest : Str),
    shapeOKL shape m → matchShape shape (m ++ rest) = some rest := by
  intro shape
  induction shape with
  | nil =>
    intro m rest h
    cases m with
    | nil => rfl
    | cons c t => exact absurd h (by simp [shapeOKL])
  | cons p ps ih =>
    intro m rest h
    cases m with
    | nil => exact absurd h (by simp [shapeOKL])
    | cons c t => simp [matchShape, h.1, ih t rest h.2]

theorem tryFixed_sound (shape : List (Char → Bool)) (prev : Option Char)
    (s : Str) (L : Nat) (h : tryFixed shape prev s = some L) :
    ∃ m rest, s = m ++ rest ∧ shapeOKL shape m ∧ L = shape.length ∧
      boundary prev s.head? = true ∧ boundary m.getLast? rest.head? = true := by
  unfold tryFixed at h
  cases hm : matchShape shape s with
  | none => simp only [hm] at h; exact Option.noConfusion h
  | some rest =>
    simp only [hm] at h
    by_cases hc : (boundary prev s.head? && boundary (s.take shape.length).getLast? rest.head?) = true
    · rw [if_pos hc] at h
      obtain ⟨m, hs, hok⟩ := matchShape_sound shape s rest hm
      have hml : m.length = shape.length := shapeOKL_length shape m hok
      have htake : s.take shape.length = m := by
        rw [hs, ← hml, List.take_left]
      rw [Bool.and_eq_true] at hc
      refine ⟨m, rest, hs, hok, by simpa using h.symm, hc.1, ?_⟩
      have := hc.2
      rwa [htake] at this
    · rw [if_neg hc] at h; exact absurd h (by simp)

theorem shapeOKL_ne_nil (shape : List (Char → Bool)) (m : Str)
    (hs : shape ≠ []) (hok : shapeOKL shape m) : m ≠ [] := by
  intro hm
  subst hm
  have := shapeOKL_length shape [] hok
  cases shape with
  | nil => exact hs rfl
  | cons p ps => simp at this

theorem tryFixed_complete (shape : List (Char → Bool)) (hs : shape ≠ [])
    (prev : Option Char) (m rest : Str) (hok : shapeOKL shape m)
    (hb1 : boundary prev m.head? = true)
    (hb2 : boundary m.getLast? rest.head? = true) :
    tryFixed shape prev (m ++ rest) = some shape.length := by
  have hml : m.length = shape.length := shapeOKL_length shape m hok
  have hmn : m ≠ [] := shapeOKL_ne_nil shape m hs hok
  unfold tryFixed
  simp only [matchShape_complete shape m rest hok]
  have htake : (m ++ rest).take shape.length = m := by rw [← hml, List.take_left]
  rw [htake, head?_append_left m rest hmn, hb1, hb2]
  rfl

/-! ### List helpers for run-based matching -/

theorem takeWhile_append_all (p : Char → Bool) :
    ∀ (a b : Str), (∀ c ∈ a, p c = true) →
      List.takeWhile p (a ++ b) = a ++ List.takeWhile p b := by
  intro a
  induction a with
  | nil => intro b _; rfl
  | cons c t ih =>
    intro b h
    have hc : p c = true := h c (by simp)
    simp only [List.cons_append, List.takeWhile_cons, hc, if_true]
    rw [ih b (fun x hx => h x (by simp [hx]))]

theorem takeWhile_stop (p : Char → Bool) (a b : Str) (x : Char)
    (ha : ∀ c ∈ a, p c = true) (hx : p x = false) :
    List.takeWhile p (a ++ x :: b) = a := by
  rw [takeWhile_append_all p a (x :: b) ha]
  simp [List.takeWhile_cons, hx]

theorem length_takeWhile_ge (p : Char → Bool) (a b : Str)
    (ha : ∀ c ∈ a, p c = true) :
    a.length ≤ (List.takeWhile p (a ++ b)).length := by
  rw [takeWhile_append_all p a b ha]
  simp

theorem all_take_of_le_takeWhile (p : Char → Bool) :
    ∀ (l : Str) (k : Nat), k ≤ (List.takeWhile p l).length →
      ∀ c ∈ l.take k, p c = true := by
  intro l
  induction l with
  | nil => intro k _ c hc; simp at hc
  | cons a t ih =>
    intro k hk c hc
    cases k with
    | zero => simp at hc
    | succ j =>
      by_cases hpa : p a = true
      · simp only [List.takeWhile_cons, hpa, if_true, List.length_cons] at hk
        simp only [List.take_succ_cons, List.mem_cons] at hc
        rcases hc with rfl | hc
        · exact hpa
        · exact ih j (Nat.le_of_succ_le_succ hk) c hc
      · have hf : p a = false := eq_false_of_ne_true hpa
        simp [List.takeWhile_cons, hf] at hk

theorem get?_zero_eq_head? (l : Str) : l.get? 0 = l.head? := by
  cases l <;> rfl

theorem getLast?_eq_get? : ∀ (l : Str), l.getLast? = l.get? (l.length - 1) := by
  intro l
  induction l with
  | nil => rfl
  | cons a t ih =>
    cases t with
    | nil => rfl
    | cons b u =>
      rw [List.getLast?_cons_cons, ih]
      simp only [List.length_cons]
      rfl

theorem findSome?_ne_none_of_mem {α β : Type} (f : α → Option β) :
    ∀ (l : List α) (a : α), a ∈ l → f a ≠ none → l.findSome? f ≠ none := by
  intro l
  induction l with
  | nil => intro a ha; simp at ha
  | cons x t ih =>
    intro a ha hf
    rw [List.findSome?_cons]
    cases hx : f x with
    | some b => simp
    | none =>
      rcases List.mem_cons.mp ha with rfl | ha
      · exact absurd hx hf
      · exact ih a ha hf

theorem exists_mem_of_findSome?_eq_some {α β : Type} (f : α → Option β) :
    ∀ (l : List α) (b : β), l.findSome? f = some b → ∃ a ∈ l, f a = some b := by
  intro l
  induction l with
  | nil => intro b h; simp [List.findSome?] at h
  | cons x t ih =>
    intro b h
    rw [List.findSome?_cons] at h
    cases hx : f x with
    | some c =>
      rw [hx] at h
      exact ⟨x, by simp, hx.trans h⟩
    | none =>
      rw [hx] at h
      obtain ⟨a, ha, hfa⟩ := ih b h
      exact ⟨a, by simp [ha], hfa⟩

/-! ### Characterization of the email matcher -/

theorem tryEmail_complete (prev : Option Char) (lp dp tp rest : Str)
    (h : ECand prev lp dp tp rest) :
    tryEmail prev (lp ++ '@' :: (dp ++ '.' :: (tp ++ rest))) ≠ none := by
  obtain ⟨hlpne, hlp, hdpne, hdp, htp2, htp, hb1, hb2⟩ := h
  cases lp with
  | nil => exact absurd rfl hlpne
  | cons c0 lp' =>
  have hb0 : boundary prev (some c0) = true := hb1
  have hdl : 1 ≤ dp.length := List.length_pos.mpr hdpne
  have htpne : tp ≠ [] := by intro h0; rw [h0] at htp2; simp at htp2
  have hlrun : List.takeWhile isLocalChar
      ((c0 :: lp') ++ '@' :: (dp ++ '.' :: (tp ++ rest))) = c0 :: lp' :=
    takeWhile_stop _ _ _ _ hlp (by decide)
  have hdrop : ((c0 :: lp') ++ '@' :: (dp ++ '.' :: (tp ++ rest))).drop
      (c0 :: lp').length = '@' :: (dp ++ '.' :: (tp ++ rest)) := List.drop_left _ _
  have hdlen : dp.length ≤
      (List.takeWhile isDomainChar (dp ++ '.' :: (tp ++ rest))).length :=
    length_takeWhile_ge _ _ _ hdp
  have hget : (dp ++ '.' :: (tp ++ rest)).get? dp.length = some '.' := by
    rw [List.get?_eq_getElem?, List.getElem?_append_right (Nat.le_refl _)]
    simp
  have htailS : (dp ++ '.' :: (tp ++ rest)).drop (dp.length + 1) = tp ++ rest := by
    rw [List.append_cons dp '.' (tp ++ rest)]
    exact List.drop_left' (by simp)
  have htlen : tp.length ≤ (List.takeWhile isTldChar (tp ++ rest)).length :=
    length_takeWhile_ge _ _ _ htp
  have htg : (List.takeWhile isTldChar (tp ++ rest)).get? (tp.length - 1) =
      tp.getLast? := by
    rw [takeWhile_append_all _ _ _ htp, List.get?_eq_getElem?,
      List.getElem?_append_left (by omega : tp.length - 1 < tp.length),
      getLast?_eq_get?, List.get?_eq_getElem?]
  have hh : (tp ++ rest).get? tp.length = rest.head? := by
    rw [List.get?_eq_getElem?, List.getElem?_append_right (Nat.le_refl _)]
    simp [← List.get?_eq_getElem?, get?_zero_eq_head?]
  have hdne : (List.takeWhile isDomainChar (dp ++ '.' :: (tp ++ rest))).isEmpty
      = false := by
    cases hq : List.takeWhile isDomainChar (dp ++ '.' :: (tp ++ rest)) with
    | nil =>
      rw [hq] at hdlen
      simp only [List.length_nil, Nat.le_zero, List.length_eq_zero] at hdlen
      exact absurd hdlen hdpne
    | cons a b => rfl
  unfold tryEmail
  simp only [List.cons_append] at hlrun hdrop ⊢
  simp only [hb0, Bool.not_true, Bool.false_eq_true, if_false, hlrun, hdrop,
    List.isEmpty_cons, hdne]
  apply findSome?_ne_none_of_mem _ _ dp.length
  · rw [List.mem_reverse, List.mem_range'_1]
    omega
  · simp only [hget, htailS]
    have hbeq : (some '.' == some '.') = true := by decide
    rw [hbeq, if_pos rfl]
    rw [if_neg (by omega : ¬ (List.takeWhile isTldChar (tp ++ rest)).length < 2)]
    apply findSome?_ne_none_of_mem _ _ tp.length
    · rw [List.mem_reverse, List.mem_range'_1]
      omega
    · rw [htg, hh, hb2, if_pos rfl]
      simp

theorem tryEmail_sound (prev : Option Char) (s : Str) (L : Nat)
    (h : tryEmail prev s = some L) :
    ∃ lp dp tp rest, s = lp ++ '@' :: (dp ++ '.' :: (tp ++ rest)) ∧
      ECand prev lp dp tp rest ∧ L = lp.length + 1 + dp.length + 1 + tp.length := by
  cases s with
  | nil => exact absurd h (by simp [tryEmail])
  | cons c0 s' =>
  simp only [tryEmail] at h
  split at h
  · exact absurd h (by simp)
  rename_i hguard
  have hb0 : boundary prev (some c0) = true := by
    cases hbv : boundary prev (some c0) with
    | true => rfl
    | false => exact absurd (by rw [hbv]; rfl) hguard
  split at h
  · exact absurd h (by simp)
  rename_i hlne
  have hlne' : List.takeWhile isLocalChar (c0 :: s') ≠ [] :=
    fun h0 => hlne (by rw [h0]; rfl)
  have hc0 : List.takeWhile isLocalChar (c0 :: s') =
      c0 :: List.takeWhile isLocalChar s' := by
    by_cases hl0 : isLocalChar c0 = true
    · rw [List.takeWhile_cons, if_pos hl0]
    · exact absurd (by rw [List.takeWhile_cons, if_neg hl0]) hlne'
  split at h <;> try exact Option.noConfusion h
  rename_i rest2 hdr
  split at h
  · exact absurd h (by simp)
  rename_i hdne
  obtain ⟨k, hkmem, hfk⟩ := exists_mem_of_findSome?_eq_some _ _ _ h
  split at hfk <;> try exact Option.noConfusion hfk
  rename_i hdot
  split at hfk
  · exact absurd hfk (by simp)
  rename_i ht2
  obtain ⟨m, hmmem, hfm⟩ := exists_mem_of_findSome?_eq_some _ _ _ hfk
  split at hfm <;> try exact Option.noConfusion hfm
  rename_i hbnd
  have hkb : 1 ≤ k ∧ k ≤ (List.takeWhile isDomainChar rest2).length := by
    rw [List.mem_reverse, List.mem_range'_1] at hkmem; omega
  have hdot' : rest2.get? k = some '.' := eq_of_beq hdot
  have hklt : k < rest2.length := by
    rw [List.get?_eq_getElem?] at hdot'
    exact (List.getElem?_eq_some.mp hdot').1
  have ht2' : 2 ≤ (List.takeWhile isTldChar (rest2.drop (k + 1))).length := by omega
  have hmb : 2 ≤ m ∧ m ≤ (List.takeWhile isTldChar (rest2.drop (k + 1))).length := by
    rw [List.mem_reverse, List.mem_range'_1] at hmmem; omega
  have hmlt : m ≤ (rest2.drop (k + 1)).length :=
    le_trans hmb.2 ((List.takeWhile_sublist _).length_le)
  have hdk : rest2.drop k = '.' :: rest2.drop (k + 1) := by
    rw [List.drop_eq_getElem_cons hklt]
    congr 1
    have := hdot'
    rw [List.get?_eq_getElem?] at this
    exact (List.getElem?_eq_some.mp this).2
  have h1 : List.takeWhile isLocalChar (c0 :: s') ++ '@' :: rest2 = c0 :: s' := by
    obtain ⟨t, ht⟩ := @List.takeWhile_prefix Char (c0 :: s') isLocalChar
    have hd := List.drop_left (List.takeWhile isLocalChar (c0 :: s')) t
    rw [ht] at hd
    have ht3 : t = '@' :: rest2 := hd.symm.trans hdr
    rw [← ht3]
    exact ht
  have h2 : rest2.take k ++ '.' :: rest2.drop (k + 1) = rest2 := by
    rw [← hdk, List.take_append_drop]
  have hlk : (rest2.take k).length = k := by rw [List.length_take]; omega
  have hlm : ((rest2.drop (k + 1)).take m).length = m := by rw [List.length_take]; omega
  refine ⟨List.takeWhile isLocalChar (c0 :: s'), rest2.take k,
    (rest2.drop (k + 1)).take m, (rest2.drop (k + 1)).drop m, ?_, ?_, ?_⟩
  · rw [List.take_append_drop m (rest2.drop (k + 1)), h2, h1]
  · refine ⟨hlne', fun c hc => List.mem_takeWhile_imp hc, ?_,
      all_take_of_le_takeWhile _ _ _ hkb.2, ?_,
      all_take_of_le_takeWhile _ _ _ hmb.2, ?_, ?_⟩
    · intro h0; rw [h0] at hlk; simp at hlk; omega
    · omega
    · rw [hc0]
      exact hb0
    · have e1 : ((rest2.drop (k + 1)).take m).getLast? =
          (List.takeWhile isTldChar (rest2.drop (k + 1))).get? (m - 1) := by
        rw [getLast?_eq_get?, hlm, List.get?_eq_getElem?, List.get?_eq_getElem?]
        rw [List.getElem?_take, if_pos (by omega : m - 1 < m)]
        obtain ⟨u, hu⟩ := @List.takeWhile_prefix Char (rest2.drop (k + 1)) isTldChar
        have hg := @List.getElem?_append_left Char
          (List.takeWhile isTldChar (rest2.drop (k + 1))) u (m - 1)
          (by omega : m - 1 <
            (List.takeWhile isTldChar (rest2.drop (k + 1))).length)
        rw [hu] at hg
        exact hg
      have e2 : ((rest2.drop (k + 1)).drop m).head? = (rest2.drop (k + 1)).get? m := by
        rw [List.head?_drop, List.get?_eq_getElem?]
      rw [e1, e2]
      exact hbnd
  · have := Option.some.inj hfm
    omega

/-! ### Transfer of matches across a replacement juncture

A placeholder starts with `[`, which belongs to none of the character
classes of the three patterns.  A match found in a partially-replaced
string therefore lies entirely before the first placeholder, and can be
replayed in the original string: the only character it may inspect beyond
the common prefix is the lookahead of its trailing `\b`, and there the
word boundary is supplied by the leading `\b` of the replaced match. -/

theorem getLast?_cons_of_ne_nil (a : Char) (l : Str) (h : l ≠ []) :
    (a :: l).getLast? = l.getLast? := by
  rw [show a :: l = [a] ++ l from rfl, List.getLast?_append_of_ne_nil [a] h]

theorem match_confined (common t₁ mtch rest : Str)
    (hdec : common ++ '[' :: t₁ = mtch ++ rest)
    (hnb : '[' ∉ mtch) :
    ∃ csuf, common = mtch ++ csuf ∧ rest = csuf ++ '[' :: t₁ := by
  have hle : mtch.length ≤ common.length := by
    by_contra hgt
    push_neg at hgt
    have h1 : (common ++ '[' :: t₁)[common.length]? = some '[' := by
      rw [List.getElem?_append_right (Nat.le_refl _)]
      simp
    rw [hdec, List.getElem?_append_left hgt] at h1
    exact hnb (List.getElem?_mem h1)
  refine ⟨common.drop mtch.length, ?_, ?_⟩
  · have h2 : (common ++ '[' :: t₁).take mtch.length = common.take mtch.length :=
      List.take_append_of_le_length hle
    rw [hdec, List.take_left] at h2
    conv_lhs => rw [← List.take_append_drop mtch.length common]
    rw [← h2]
  · have h3 : (common ++ '[' :: t₁).drop mtch.length = common.drop mtch.length ++ '[' :: t₁ :=
      List.drop_append_of_le_length hle
    rw [hdec, List.drop_left] at h3
    exact h3

theorem boundary_congr (p q : Option Char) (x : Option Char)
    (h : isWordO p = isWordO q) : boundary p x = boundary q x := by
  unfold boundary
  rw [h]

theorem shapeOKL_mem : ∀ (shape : List (Char → Bool)) (m : Str),
    shapeOKL shape m → ∀ c ∈ m, ∃ p ∈ shape, p c = true := by
  intro shape
  induction shape with
  | nil =>
    intro m h c hc
    cases m with
    | nil => simp at hc
    | cons a t => exact absurd h (by simp [shapeOKL])
  | cons p ps ih =>
    intro m h c hc
    cases m with
    | nil => simp at hc
    | cons a t =>
      rcases List.mem_cons.mp hc with rfl | hc
      · exact ⟨p, by simp, h.1⟩
      · obtain ⟨q, hq, hqc⟩ := ih t h.2 c hc
        exact ⟨q, by simp [hq], hqc⟩

theorem tryFixed_transfer (shape : List (Char → Bool)) (hs : shape ≠ [])
    (hnb : ∀ p ∈ shape, p '[' = false)
    (prev : Option Char) (common t₁ t₂ : Str) (mf : Char)
    (hb : boundary common.getLast? (some mf) = true)
    (ho : tryFixed shape prev (common ++ '[' :: t₁) ≠ none) :
    tryFixed shape prev (common ++ mf :: t₂) ≠ none := by
  cases hL : tryFixed shape prev (common ++ '[' :: t₁) with
  | none => exact absurd hL ho
  | some L =>
  obtain ⟨m, rest, hdec, hok, _, hb1, hb2⟩ := tryFixed_sound shape prev _ L hL
  have hmne : m ≠ [] := shapeOKL_ne_nil shape m hs hok
  have hnbm : '[' ∉ m := by
    intro hmem
    obtain ⟨p, hp, hpc⟩ := shapeOKL_mem shape m hok '[' hmem
    rw [hnb p hp] at hpc
    exact Bool.noConfusion hpc
  obtain ⟨csuf, hcs, hrest⟩ := match_confined common t₁ m rest hdec hnbm
  have hb1' : boundary prev m.head? = true := by
    rw [hdec, head?_append_left m rest hmne] at hb1
    exact hb1
  have htrail : boundary m.getLast? (csuf ++ mf :: t₂).head? = true := by
    cases csuf with
    | nil =>
      rw [hcs, List.append_nil] at hb
      simpa using hb
    | cons c2 cs2 =>
      rw [hrest] at hb2
      simpa using hb2
  have hcomp := tryFixed_complete shape hs prev m (csuf ++ mf :: t₂) hok hb1' htrail
  have hSeq : common ++ mf :: t₂ = m ++ (csuf ++ mf :: t₂) := by
    rw [hcs, List.append_assoc]
  rw [hSeq, hcomp]
  simp

theorem tryEmail_transfer (prev : Option Char) (common t₁ t₂ : Str) (mf : Char)
    (hb : boundary common.getLast? (some mf) = true)
    (ho : tryEmail prev (common ++ '[' :: t₁) ≠ none) :
    tryEmail prev (common ++ mf :: t₂) ≠ none := by
  cases hL : tryEmail prev (common ++ '[' :: t₁) with
  | none => exact absurd hL ho
  | some L =>
  obtain ⟨lp, dp, tp, rest, hdec, hcand, _⟩ := tryEmail_sound prev _ L hL
  obtain ⟨hlpne, hlp, hdpne, hdp, htp2, htp, hbl, hbt⟩ := hcand
  have htpne : tp ≠ [] := by intro h0; rw [h0] at htp2; simp at htp2
  have hassoc : lp ++ '@' :: (dp ++ '.' :: (tp ++ rest)) =
      (lp ++ '@' :: (dp ++ '.' :: tp)) ++ rest := by
    simp
  have hnbm : '[' ∉ (lp ++ '@' :: (dp ++ '.' :: tp)) := by
    intro hmem
    rcases List.mem_append.mp hmem with hm1 | hm2
    · have := hlp '[' hm1
      exact absurd this (by decide)
    · rcases List.mem_cons.mp hm2 with heq | hm3
      · exact absurd heq (by decide)
      rcases List.mem_append.mp hm3 with hm4 | hm5
      · have := hdp '[' hm4
        exact absurd this (by decide)
      rcases List.mem_cons.mp hm5 with heq | hm6
      · exact absurd heq (by decide)
      · have := htp '[' hm6
        exact absurd this (by decide)
  have hdec' : common ++ '[' :: t₁ = (lp ++ '@' :: (dp ++ '.' :: tp)) ++ rest := by
    rw [hdec, hassoc]
  obtain ⟨csuf, hcs, hrest⟩ := match_confined common t₁ _ rest hdec' hnbm
  have hmlast : (lp ++ '@' :: (dp ++ '.' :: tp)).getLast? = tp.getLast? := by
    rw [List.getLast?_append_of_ne_nil lp (by simp),
      getLast?_cons_of_ne_nil _ _ (by simp),
      List.getLast?_append_of_ne_nil dp (by simp),
      getLast?_cons_of_ne_nil _ _ htpne]
  have htrail : boundary tp.getLast? (csuf ++ mf :: t₂).head? = true := by
    cases csuf with
    | nil =>
      rw [hcs, List.append_nil, hmlast] at hb
      simpa using hb
    | cons c2 cs2 =>
      rw [hrest] at hbt
      simpa using hbt
  have hcomp := tryEmail_complete prev lp dp tp (csuf ++ mf :: t₂)
    ⟨hlpne, hlp, hdpne, hdp, htp2, htp, hbl, htrail⟩
  have hSeq : common ++ mf :: t₂ =
      lp ++ '@' :: (dp ++ '.' :: (tp ++ (csuf ++ mf :: t₂))) := by
    rw [hcs]
    simp
  rw [hSeq]
  exact hcomp

/-! ### Matcher facts: context irrelevance, non-word heads, boundary data -/

theorem tryFixed_irrel (shape : List (Char → Bool)) (prev prev' : Option Char)
    (s : Str) (h : isWordO prev = isWordO prev') :
    tryFixed shape prev s = tryFixed shape prev' s := by
  unfold tryFixed
  cases matchShape shape s with
  | none => rfl
  | some rest => rw [boundary_congr prev prev' _ h]

theorem tryEmail_irrel (prev prev' : Option Char) (s : Str)
    (h : isWordO prev = isWordO prev') :
    tryEmail prev s = tryEmail prev' s := by
  cases s with
  | nil => rfl
  | cons c0 s' =>
    simp only [tryEmail]
    rw [boundary_congr prev prev' _ h]

theorem isDigitCh_isWordChar (c : Char) (h : isDigitCh c = true) :
    isWordChar c = true := by
  unfold isDigitCh at h
  unfold isWordChar
  rw [h]
  simp

theorem tryFixed_none_head (ps : List (Char → Bool)) (prev : Option Char)
    (c : Char) (t : Str) (hc : isDigitCh c = false) :
    tryFixed (isDigitCh :: ps) prev (c :: t) = none := by
  unfold tryFixed matchShape
  rw [hc]
  simp

theorem tryFixed_none_nonword (ps : List (Char → Bool)) (prev : Option Char)
    (c : Char) (t : Str) (hc : isWordChar c = false) :
    tryFixed (isDigitCh :: ps) prev (c :: t) = none := by
  apply tryFixed_none_head
  cases hd : isDigitCh c with
  | false => rfl
  | true => rw [isDigitCh_isWordChar c hd] at hc; exact Bool.noConfusion hc

theorem tryEmail_none_nonword (prev : Option Char) (c : Char) (t : Str)
    (hp : isWordO prev = false) (hc : isWordChar c = false) :
    tryEmail prev (c :: t) = none := by
  have hb : boundary prev (some c) = false := by
    unfold boundary
    rw [hp, show isWordO (some c) = isWordChar c from rfl, hc]
    rfl
  simp only [tryEmail]
  rw [hb]
  simp

theorem tryFixed_qfacts (shape : List (Char → Bool)) (hs : shape ≠ [])
    (prev : Option Char) (x : Str) (L : Nat) (h : tryFixed shape prev x = some L) :
    (1 ≤ L ∧ L ≤ x.length) ∧ boundary prev x.head? = true ∧
      boundary ((x.take L).getLast?) ((x.drop L).head?) = true := by
  obtain ⟨m, rest, hdec, hok, hLs, hb1, hb2⟩ := tryFixed_sound shape prev x L h
  have hml : m.length = shape.length := shapeOKL_length shape m hok
  have hmne : m ≠ [] := shapeOKL_ne_nil shape m hs hok
  have hm1 : 1 ≤ m.length := List.length_pos.mpr hmne
  have htake : x.take L = m := by rw [hdec, hLs, ← hml, List.take_left]
  have hdrop : x.drop L = rest := by rw [hdec, hLs, ← hml, List.drop_left]
  refine ⟨⟨by omega, ?_⟩, hb1, ?_⟩
  · rw [hdec, List.length_append]
    omega
  · rw [htake, hdrop]
    exact hb2

theorem email_match_getLast (lp dp tp : Str) (htpne : tp ≠ []) :
    (lp ++ '@' :: (dp ++ '.' :: tp)).getLast? = tp.getLast? := by
  rw [List.getLast?_append_of_ne_nil lp (by simp),
    getLast?_cons_of_ne_nil _ _ (by simp),
    List.getLast?_append_of_ne_nil dp (by simp),
    getLast?_cons_of_ne_nil _ _ htpne]

theorem tryEmail_qfacts (prev : Option Char) (x : Str) (L : Nat)
    (h : tryEmail prev x = some L) :
    (1 ≤ L ∧ L ≤ x.length) ∧ boundary prev x.head? = true ∧
      boundary ((x.take L).getLast?) ((x.drop L).head?) = true := by
  obtain ⟨lp, dp, tp, rest, hdec, hcand, hLe⟩ := tryEmail_sound prev x L h
  obtain ⟨hlpne, hlp, hdpne, hdp, htp2, htp, hbl, hbt⟩ := hcand
  have htpne : tp ≠ [] := by intro h0; rw [h0] at htp2; simp at htp2
  have hassoc : x = (lp ++ '@' :: (dp ++ '.' :: tp)) ++ rest := by rw [hdec]; simp
  have hmlen : (lp ++ '@' :: (dp ++ '.' :: tp)).length = L := by
    simp only [List.length_append, List.length_cons]
    omega
  have htake : x.take L = lp ++ '@' :: (dp ++ '.' :: tp) := by
    rw [hassoc, ← hmlen, List.take_left]
  have hdrop : x.drop L = rest := by rw [hassoc, ← hmlen, List.drop_left]
  have hhead : x.head? = lp.head? := by
    rw [hassoc, head?_append_left _ _ (by simp), head?_append_left lp _ hlpne]
  refine ⟨⟨by omega, ?_⟩, by rw [hhead]; exact hbl, ?_⟩
  · rw [hassoc, List.length_append]
    omega
  · rw [htake, hdrop, email_match_getLast lp dp tp htpne]
    exact hbt

/-! ### The matchers report no match anywhere inside a placeholder -/

theorem noMatchAlong_fixed (ps : List (Char → Bool)) :
    ∀ (s : Str), (∀ c ∈ s, isDigitCh c = false) →
      ∀ (tail : Str) (ctx : Option Char),
        noMatchAlong (tryFixed (isDigitCh :: ps)) tail ctx s := by
  intro s
  induction s with
  | nil => intro _ tail ctx; trivial
  | cons c t ih =>
    intro hcs tail ctx
    refine ⟨tryFixed_none_head ps ctx c _ (hcs c (by simp)), ?_⟩
    exact ih (fun x hx => hcs x (by simp [hx])) tail (some c)

theorem tryEmail_none_nonlocal_head (prev : Option Char) (c : Char) (t : Str)
    (hc : isLocalChar c = false) : tryEmail prev (c :: t) = none := by
  simp only [tryEmail]
  by_cases hb : boundary prev (some c) = true
  · rw [hb]
    simp only [Bool.not_true, Bool.false_eq_true, if_false]
    rw [List.takeWhile_cons, hc]
    simp
  · rw [eq_false_of_ne_true hb]
    simp

theorem tryEmail_none_local_bracketed (body tail : Str) (prev : Option Char)
    (hb : ∀ c ∈ body, isLocalChar c = true) (hne : body ≠ []) :
    tryEmail prev (body ++ ']' :: tail) = none := by
  cases body with
  | nil => exact absurd rfl hne
  | cons c0 b' =>
  simp only [tryEmail, List.cons_append]
  by_cases hbd : boundary prev (some c0) = true
  · rw [hbd]
    simp only [Bool.not_true, Bool.false_eq_true, if_false]
    have hlrun : List.takeWhile isLocalChar (c0 :: (b' ++ ']' :: tail)) = c0 :: b' := by
      have := takeWhile_stop isLocalChar (c0 :: b') tail ']' hb (by decide)
      simpa using this
    rw [hlrun]
    simp only [List.isEmpty_cons, Bool.false_eq_true, if_false]
    have hdrop : (c0 :: (b' ++ ']' :: tail)).drop (c0 :: b').length = ']' :: tail := by
      have := List.drop_left (c0 :: b') (']' :: tail)
      simpa using this
    rw [hdrop]
    rfl
  · rw [eq_false_of_ne_true hbd]
    simp

theorem noMatchAlong_email_body : ∀ (body : Str),
    (∀ c ∈ body, isLocalChar c = true) →
    ∀ (tail : Str) (ctx : Option Char),
      noMatchAlong tryEmail tail ctx (body ++ [']']) := by
  intro body
  induction body with
  | nil =>
    intro _ tail ctx
    exact ⟨tryEmail_none_nonlocal_head ctx ']' _ (by decide), trivial⟩
  | cons c b' ih =>
    intro hb tail ctx
    refine ⟨?_, ih (fun x hx => hb x (by simp [hx])) tail (some c)⟩
    have := tryEmail_none_local_bracketed (c :: b') tail ctx hb (by simp)
    simpa using this

theorem noMatchAlong_emailR (body : Str) (hb : ∀ c ∈ body, isLocalChar c = true)
    (tail : Str) (ctx : Option Char) :
    noMatchAlong tryEmail tail ctx ('[' :: (body ++ [']'])) :=
  ⟨tryEmail_none_nonlocal_head ctx '[' _ (by decide),
   noMatchAlong_email_body body hb tail (some '[')⟩

/-! ### The main preservation induction -/

theorem ctxOK_refl (p : Option Char) (x : Str) : CtxOK p p x := by
  cases x with
  | nil => trivial
  | cons c t => exact Or.inl rfl

/-- Decomposition of a scan output at its first replacement, if any. -/
theorem firstRep (tryQ : Option Char → Str → Option Nat) (R : Str) :
    ∀ (fuel : Nat) (x : Str) (prev : Option Char),
      replaceAllAux tryQ R fuel prev x = x ∨
      ∃ (pre mrest : Str) (L : Nat) (out₂ : Str),
        x = pre ++ mrest ∧ mrest ≠ [] ∧
        tryQ (ctxA prev pre) mrest = some L ∧
        replaceAllAux tryQ R fuel prev x = pre ++ (R ++ out₂) := by
  intro fuel
  induction fuel with
  | zero => intro x prev; left; rfl
  | succ f ih =>
    intro x prev
    cases x with
    | nil => left; rfl
    | cons c rest =>
      cases htry : tryQ prev (c :: rest) with
      | some L =>
        right
        exact ⟨[], c :: rest, L,
          replaceAllAux tryQ R f ((c :: rest).take (max L 1)).getLast?
            ((c :: rest).drop (max L 1)),
          rfl, by simp, by simpa [ctxA] using htry,
          by simp only [replaceAllAux, htry, List.nil_append]⟩
      | none =>
        rcases ih rest (some c) with hid | ⟨pre, mrest, L, out₂, hx, hne, htryp, heq⟩
        · left
          simp only [replaceAllAux, htry]
          rw [hid]
        · right
          refine ⟨c :: pre, mrest, L, out₂, by simp [hx], hne, by rwa [ctxA_cons], ?_⟩
          simp only [replaceAllAux, htry]
          rw [heq]
          simp

/-- Scanning `x` with pattern `Q`, replacing its matches by the bracketed
placeholder `[` … `]`, yields a string in which pattern `P` matches nowhere:
`P` matched nowhere in `x` at the positions where `Q` found no match
(`HypPQ`), matches of `P` cannot overlap a placeholder, and a match of `P`
ending right before a placeholder can be replayed in `x` against the leading
word boundary of the replaced `Q` match. -/
theorem mainNoMatch (tryP tryQ : Option Char → Str → Option Nat) (Rb : Str)
    (hRnm : ∀ (tail : Str) (ctx : Option Char),
      noMatchAlong tryP tail ctx ('[' :: (Rb ++ [']'])))
    (hPirrel : ∀ prev prev' x, isWordO prev = isWordO prev' →
      tryP prev x = tryP prev' x)
    (hPnw : ∀ prev c t, isWordO prev = false → isWordChar c = false →
      tryP prev (c :: t) = none)
    (hPtrans : ∀ prev (common t₁ t₂ : Str) mf, common ≠ [] →
      boundary common.getLast? (some mf) = true →
      tryP prev (common ++ '[' :: t₁) ≠ none →
      tryP prev (common ++ mf :: t₂) ≠ none)
    (hQfacts : ∀ prev x L, tryQ prev x = some L →
      (1 ≤ L ∧ L ≤ x.length) ∧ boundary prev x.head? = true ∧
        boundary ((x.take L).getLast?) ((x.drop L).head?) = true) :
    ∀ (fuel : Nat) (x : Str) (prevX prevOut : Option Char), x.length < fuel →
      HypPQ tryP tryQ prevX x →
      CtxOK prevX prevOut x →
      noMatchScan tryP prevOut
        (replaceAllAux tryQ ('[' :: (Rb ++ [']'])) fuel prevX x) := by
  intro fuel
  induction fuel with
  | zero => intro x prevX prevOut h; omega
  | succ f ih =>
    intro x prevX prevOut hlen hhyp hctx
    cases x with
    | nil => exact trivial
    | cons c rest =>
      cases htry : tryQ prevX (c :: rest) with
      | none =>
        simp only [replaceAllAux, htry]
        have hPx : tryP prevX (c :: rest) = none := hhyp.1 htry
        refine ⟨?_, ?_⟩
        · rcases hctx with hctxeq | ⟨hnwOut, hnwc⟩
          · rcases firstRep tryQ _ f rest (some c) with hid |
              ⟨pre, mrest, L, out₂, hx, hne, htryp, heq⟩
            · rw [hid, hPirrel prevOut prevX _ hctxeq]
              exact hPx
            · rw [heq, hPirrel prevOut prevX _ hctxeq]
              by_contra h0
              cases mrest with
              | nil => exact hne rfl
              | cons mf mtail =>
              have hctxa : ctxA (some c) pre = (c :: pre).getLast? :=
                (ctxA_cons (some c) c pre).symm.trans
                  (ctxA_eq_getLast (some c) (c :: pre) (by simp))
              have hb : boundary ((c :: pre).getLast?) (some mf) = true := by
                have hq := (hQfacts _ _ _ htryp).2.1
                rw [hctxa] at hq
                simpa using hq
              have hstr : c :: (pre ++ ('[' :: (Rb ++ [']']) ++ out₂)) =
                  (c :: pre) ++ '[' :: ((Rb ++ [']']) ++ out₂) := by simp
              rw [hstr] at h0
              have h2 := hPtrans prevX (c :: pre) ((Rb ++ [']']) ++ out₂) mtail mf
                (by simp) hb h0
              have hfin : (c :: pre) ++ mf :: mtail = c :: rest := by
                rw [hx]
                simp
              rw [hfin] at h2
              exact h2 hPx
          · exact hPnw prevOut c _ hnwOut hnwc
        · exact ih rest (some c) (some c)
            (by simpa using Nat.lt_of_succ_lt_succ hlen) hhyp.2 (ctxOK_refl _ _)
      | some L =>
        obtain ⟨⟨hL1, hLle⟩, hlead, htrail⟩ := hQfacts _ _ _ htry
        simp only [replaceAllAux, htry]
        have hmx : max L 1 = L := by omega
        rw [hmx]
        apply noMatchScan_append
        · exact hRnm _ _
        · rw [ctxA_eq_getLast _ _ (by simp),
            getLast?_cons_of_ne_nil _ _ (by simp),
            List.getLast?_append_of_ne_nil Rb (by simp : ([']'] : Str) ≠ []),
            show ([']'] : Str).getLast? = some ']' from rfl]
          have htne : (c :: rest).take L ≠ [] := by
            cases L with
            | zero => omega
            | succ n => simp
          apply ih
          · rw [List.length_drop]
            simp only [List.length_cons] at hlen ⊢
            omega
          · have := hypPQ_suffix tryP tryQ (c :: rest) L prevX hhyp
            rwa [ctxA_eq_getLast prevX _ htne] at this
          · cases hxr : (c :: rest).drop L with
            | nil => trivial
            | cons d dt =>
              rw [hxr] at htrail
              simp only [List.head?_cons] at htrail
              by_cases hw : isWordO (((c :: rest).take L).getLast?) = true
              · refine Or.inr ⟨by decide, ?_⟩
                unfold boundary at htrail
                rw [hw] at htrail
                cases hdw : isWordChar d with
                | false => rfl
                | true =>
                  rw [show isWordO (some d) = isWordChar d from rfl, hdw] at htrail
                  exact Bool.noConfusion htrail
              · exact Or.inl (by
                  rw [show isWordO (some ']') = false from by decide,
                    eq_false_of_ne_true hw])

/-! ### Instantiation for the three redaction passes -/

theorem phoneShape_ne_nil : phoneShape ≠ [] := List.cons_ne_nil _ _

theorem ssnShape_ne_nil : ssnShape ≠ [] := List.cons_ne_nil _ _

theorem phoneShape_bracket : ∀ p ∈ phoneShape, p '[' = false := by
  intro p hp
  fin_cases hp <;> decide

theorem ssnShape_bracket : ∀ p ∈ ssnShape, p '[' = false := by
  intro p hp
  fin_cases hp <;> decide

theorem noEmail_emailPass (s : Str) : noMatchScan tryEmail none (emailPass s) := by
  unfold emailPass jsReplaceAll
  rw [show str "[EMAIL_REDACTED]" = '[' :: (str "EMAIL_REDACTED" ++ [']'])
    from by decide]
  exact mainNoMatch tryEmail tryEmail (str "EMAIL_REDACTED")
    (fun tail ctx => noMatchAlong_emailR _ (by decide) tail ctx)
    tryEmail_irrel
    (fun prev c t hp hc => tryEmail_none_nonword prev c t hp hc)
    (fun prev common t₁ t₂ mf _ hb ho => tryEmail_transfer prev common t₁ t₂ mf hb ho)
    tryEmail_qfacts
    (s.length + 1) s none none (by omega) (hypPQ_refl _ s none) (ctxOK_refl none s)

theorem noEmail_phonePass (u : Str) (h : noMatchScan tryEmail none u) :
    noMatchScan tryEmail none (phonePass u) := by
  unfold phonePass jsReplaceAll
  rw [show str "[PHONE_REDACTED]" = '[' :: (str "PHONE_REDACTED" ++ [']'])
    from by decide]
  exact mainNoMatch tryEmail (tryFixed phoneShape) (str "PHONE_REDACTED")
    (fun tail ctx => noMatchAlong_emailR _ (by decide) tail ctx)
    tryEmail_irrel
    (fun prev c t hp hc => tryEmail_none_nonword prev c t hp hc)
    (fun prev common t₁ t₂ mf _ hb ho => tryEmail_transfer prev common t₁ t₂ mf hb ho)
    (tryFixed_qfacts phoneShape phoneShape_ne_nil)
    (u.length + 1) u none none (by omega) (hypPQ_of_noMatch _ _ u none h)
    (ctxOK_refl none u)

theorem noEmail_ssnPass (u : Str) (h : noMatchScan tryEmail none u) :
    noMatchScan tryEmail none (ssnPass u) := by
  unfold ssnPass jsReplaceAll
  rw [show str "[SSN_REDACTED]" = '[' :: (str "SSN_REDACTED" ++ [']'])
    from by decide]
  exact mainNoMatch tryEmail (tryFixed ssnShape) (str "SSN_REDACTED")
    (fun tail ctx => noMatchAlong_emailR _ (by decide) tail ctx)
    tryEmail_irrel
    (fun prev c t hp hc => tryEmail_none_nonword prev c t hp hc)
    (fun prev common t₁ t₂ mf _ hb ho => tryEmail_transfer prev common t₁ t₂ mf hb ho)
    (tryFixed_qfacts ssnShape ssnShape_ne_nil)
    (u.length + 1) u none none (by omega) (hypPQ_of_noMatch _ _ u none h)
    (ctxOK_refl none u)

theorem noPhone_phonePass (u : Str) :
    noMatchScan (tryFixed phoneShape) none (phonePass u) := by
  unfold phonePass jsReplaceAll
  rw [show str "[PHONE_REDACTED]" = '[' :: (str "PHONE_REDACTED" ++ [']'])
    from by decide]
  exact mainNoMatch (tryFixed phoneShape) (tryFixed phoneShape) (str "PHONE_REDACTED")
    (fun tail ctx => noMatchAlong_fixed _ _ (by decide) tail ctx)
    (tryFixed_irrel phoneShape)
    (fun prev c t _ hc => tryFixed_none_nonword _ prev c t hc)
    (fun prev common t₁ t₂ mf hcne hb ho =>
      tryFixed_transfer phoneShape phoneShape_ne_nil phoneShape_bracket
        prev common t₁ t₂ mf hb ho)
    (tryFixed_qfacts phoneShape phoneShape_ne_nil)
    (u.length + 1) u none none (by omega) (hypPQ_refl _ u none) (ctxOK_refl none u)

theorem noPhone_ssnPass (u : Str) (h : noMatchScan (tryFixed phoneShape) none u) :
    noMatchScan (tryFixed phoneShape) none (ssnPass u) := by
  unfold ssnPass jsReplaceAll
  rw [show str "[SSN_REDACTED]" = '[' :: (str "SSN_REDACTED" ++ [']'])
    from by decide]
  exact mainNoMatch (tryFixed phoneShape) (tryFixed ssnShape) (str "SSN_REDACTED")
    (fun tail ctx => noMatchAlong_fixed _ _ (by decide) tail ctx)
    (tryFixed_irrel phoneShape)
    (fun prev c t _ hc => tryFixed_none_nonword _ prev c t hc)
    (fun prev common t₁ t₂ mf hcne hb ho =>
      tryFixed_transfer phoneShape phoneShape_ne_nil phoneShape_bracket
        prev common t₁ t₂ mf hb ho)
    (tryFixed_qfacts ssnShape ssnShape_ne_nil)
    (u.length + 1) u none none (by omega) (hypPQ_of_noMatch _ _ u none h)
    (ctxOK_refl none u)

theorem noSsn_ssnPass (u : Str) :
    noMatchScan (tryFixed ssnShape) none (ssnPass u) := by
  unfold ssnPass jsReplaceAll
  rw [show str "[SSN_REDACTED]" = '[' :: (str "SSN_REDACTED" ++ [']'])
    from by decide]
  exact mainNoMatch (tryFixed ssnShape) (tryFixed ssnShape) (str "SSN_REDACTED")
    (fun tail ctx => noMatchAlong_fixed _ _ (by decide) tail ctx)
    (tryFixed_irrel ssnShape)
    (fun prev c t _ hc => tryFixed_none_nonword _ prev c t hc)
    (fun prev common t₁ t₂ mf hcne hb ho =>
      tryFixed_transfer ssnShape ssnShape_ne_nil ssnShape_bracket
        prev common t₁ t₂ mf hb ho)
    (tryFixed_qfacts ssnShape ssnShape_ne_nil)
    (u.length + 1) u none none (by omega) (hypPQ_refl _ u none) (ctxOK_refl none u)

/-- The redactor's output matches none of the three PII patterns anywhere. -/
theorem redact_noMatches (s : Str) :
    noMatchScan tryEmail none (redactFallback s) ∧
    noMatchScan (tryFixed phoneShape) none (redactFallback s) ∧
    noMatchScan (tryFixed ssnShape) none (redactFallback s) := by
  unfold redactFallback
  exact ⟨noEmail_ssnPass _ (noEmail_phonePass _ (noEmail_emailPass s)),
    noPhone_ssnPass _ (noPhone_phonePass (emailPass s)),
    noSsn_ssnPass _⟩

/-- A string matching none of the three patterns is a fixed point of the
redactor. -/
theorem redactFallback_id_of_noMatch (u : Str)
    (he : noMatchScan tryEmail none u)
    (hp : noMatchScan (tryFixed phoneShape) none u)
    (hs : noMatchScan (tryFixed ssnShape) none u) :
    redactFallback u = u := by
  unfold redactFallback emailPass phonePass ssnPass jsReplaceAll
  rw [noMatchScan_replaceAll_id _ _ _ _ _ (by omega) he]
  rw [noMatchScan_replaceAll_id _ _ _ _ _ (by omega) hp]
  rw [noMatchScan_replaceAll_id _ _ _ _ _ (by omega) hs]

/-- Claim C9: the regex fallback redactor is idempotent — for every input
string (in particular any input containing email, phone, or government-ID
patterns), applying `redactFallback` twice equals applying it once; the
placeholder tokens it inserts match none of its three PII patterns, shown
both by the general fixed-point property and on the literal placeholder
string. -/
theorem C9_redact_idempotent (s : Str) :
    redactFallback (redactFallback s) = redactFallback s ∧
    redactFallback (str "[EMAIL_REDACTED][PHONE_REDACTED][SSN_REDACTED]") =
      str "[EMAIL_REDACTED][PHONE_REDACTED][SSN_REDACTED]" := by
  refine ⟨?_, by decide⟩
  obtain ⟨he, hp, hs⟩ := redact_noMatches s
  exact redactFallback_id_of_noMatch _ he hp hs

end Lucid
